import Mathlib

/-!
# Verification of the MultiversityAI/agency Trajectory & Graph Engine

A shallow embedding of the core services of the repository:

* `src/api/src/services/agent.ts` — tag extraction (`extractEntities`) and the
  per-turn orchestration (`processMessage`);
* `src/api/src/services/trajectory.ts` — `TrajectoryEngine` (`startTrajectory`,
  `logEvent`, `findOrCreateEntity`, `trackContribution`, `completeTrajectory`,
  `updateCooccurrences`, `strengthenEdges`, `trackOutcomes`);
* `src/api/src/services/graph-reasoner.ts` — `GraphReasoner` (`resolveEntities`,
  `projectOutcomesFromEdges`, `findDifferentiatorsFromStructure`,
  `computeOutcomeShift`, `simulate`, the counterfactual input swap and
  `compareOutcomes`).

Modelling conventions:

* JavaScript strings are `List Char` (`Str`); ids produced by `nanoid()` are
  generated from a deterministic counter held in the engine state.
* The SQLite store is a record of row lists; `SELECT … LIMIT 1` takes the first
  matching row in insertion order, `UPDATE` maps over rows, `INSERT` appends.
* Timestamps (`new Date()`) are explicit `Nat` parameters.
* JavaScript numbers holding counters are `Nat`; probabilities (ratios of edge
  weights) are `ℚ`, which matches the exact rational arithmetic the floating
  point code performs on these small integer ratios.
* Opaque JSON event payloads (`data`, serialised `_context`) are carried as
  `Option Str` without modelling the serialisation, since no studied code path
  reads them back.
-/

namespace Agency

/-- JavaScript strings, as lists of characters. -/
abbrev Str := List Char

/-! ## Character helpers (JS `\w`, `\s`, `toLowerCase`) -/

/-- JS regex `\w` character class: `[A-Za-z0-9_]`. -/
def isWordChar (c : Char) : Bool :=
  decide (('a' ≤ c ∧ c ≤ 'z') ∨ ('A' ≤ c ∧ c ≤ 'Z') ∨ ('0' ≤ c ∧ c ≤ '9') ∨ c = '_')

/-- Whitespace recognised by JS `String.prototype.trim` (ASCII part). -/
def isSpaceChar (c : Char) : Bool :=
  decide (c = ' ' ∨ c = '\t' ∨ c = '\n' ∨ c = '\r' ∨ c = '\x0b' ∨ c = '\x0c')

/-- ASCII lower-casing of a character, as JS `toLowerCase` acts on `A`-`Z`. -/
def toLowerChar (c : Char) : Char :=
  if 65 ≤ c.toNat ∧ c.toNat ≤ 90 then Char.ofNat (c.toNat + 32) else c

/-- JS `String.prototype.toLowerCase`. -/
def lowerStr (s : Str) : Str := s.map toLowerChar

/-- JS `String.prototype.trim`. -/
def trimStr (s : Str) : Str :=
  ((s.dropWhile isSpaceChar).reverse.dropWhile isSpaceChar).reverse

/-- `x.trim().toLowerCase()` — the name normalisation used throughout. -/
def normStr (s : Str) : Str := lowerStr (trimStr s)

/-- JS string comparison (`<` on strings, used by `Array.prototype.sort()`):
lexicographic on code units. -/
def strLt : Str → Str → Bool
  | [], [] => false
  | [], _ :: _ => true
  | _ :: _, [] => false
  | a :: as, b :: bs =>
    if a.toNat < b.toNat then true
    else if b.toNat < a.toNat then false
    else strLt as bs

def strLe (a b : Str) : Bool := !(strLt b a)

/-- Substring test, modelling SQL `LIKE '%needle%'` and JS `String.includes`. -/
def isPrefixList : Str → Str → Bool
  | [], _ => true
  | _ :: _, [] => false
  | a :: as, b :: bs => a = b && isPrefixList as bs

def containsSub (needle : Str) : Str → Bool
  | [] => needle.isEmpty
  | c :: t => isPrefixList needle (c :: t) || containsSub needle t

/-! ## Descending sort by a key (models `Array.prototype.sort` with a
`(a, b) => keyOf b - keyOf a` comparator; only the descending-sortedness and
the multiset of elements are relied upon by the verified properties). -/

def insertDescBy {α β : Type} [LinearOrder β] (key : α → β) (a : α) : List α → List α
  | [] => [a]
  | b :: l => if key b ≤ key a then a :: b :: l else b :: insertDescBy key a l

def sortDescBy {α β : Type} [LinearOrder β] (key : α → β) : List α → List α
  | [] => []
  | a :: l => insertDescBy key a (sortDescBy key l)

theorem insertDescBy_perm {α β : Type} [LinearOrder β] (key : α → β) (a : α) (l : List α) :
    List.Perm (insertDescBy key a l) (a :: l) := by
  induction l with
  | nil => simp [insertDescBy]
  | cons b t ih =>
    simp only [insertDescBy]
    split
    · exact List.Perm.refl _
    · exact ((ih.cons b).trans (List.Perm.swap a b t))

theorem sortDescBy_perm {α β : Type} [LinearOrder β] (key : α → β) (l : List α) :
    List.Perm (sortDescBy key l) l := by
  induction l with
  | nil => simp [sortDescBy]
  | cons a t ih =>
    exact ((insertDescBy_perm key a (sortDescBy key t)).trans (ih.cons a))

theorem mem_insertDescBy {α β : Type} [LinearOrder β] {key : α → β} {a x : α} {l : List α} :
    x ∈ insertDescBy key a l ↔ x = a ∨ x ∈ l :=
  ⟨fun h => by
      have := (insertDescBy_perm key a l).mem_iff.mp h
      simpa using this,
   fun h => (insertDescBy_perm key a l).mem_iff.mpr (by rcases h with h | h <;> simp [h])⟩

theorem insertDescBy_sorted {α β : Type} [LinearOrder β] {key : α → β} {a : α} {l : List α}
    (h : l.Pairwise (fun x y => key y ≤ key x)) :
    (insertDescBy key a l).Pairwise (fun x y => key y ≤ key x) := by
  induction l with
  | nil => simp [insertDescBy]
  | cons b t ih =>
    simp only [insertDescBy]
    rcases List.pairwise_cons.mp h with ⟨hb, ht⟩
    split
    · rename_i hba
      refine List.pairwise_cons.mpr ⟨?_, h⟩
      intro y hy
      rcases hy with _ | hy
      · exact hba
      · exact le_trans (hb y (by assumption)) hba
    · rename_i hba
      refine List.pairwise_cons.mpr ⟨?_, ih ht⟩
      intro y hy
      rcases mem_insertDescBy.mp hy with rfl | hy
      · exact le_of_not_le hba
      · exact hb y hy

theorem sortDescBy_sorted {α β : Type} [LinearOrder β] (key : α → β) (l : List α) :
    (sortDescBy key l).Pairwise (fun x y => key y ≤ key x) := by
  induction l with
  | nil => simp [sortDescBy]
  | cons a t ih => exact insertDescBy_sorted ih

/-- First-occurrence deduplication with an explicit seen set, as building a
JS `Set` from a list. -/
def firstDedupAux (seen : List Str) : List Str → List Str
  | [] => []
  | a :: l =>
    if decide (a ∈ seen) then firstDedupAux seen l
    else a :: firstDedupAux (a :: seen) l

/-- `[...new Set(l)]`. -/
def firstDedup (l : List Str) : List Str := firstDedupAux [] l

/-! ## Data model (`src/api/src/db/schema.ts`) -/

/-- Row of table `entity`. -/
structure Entity where
  id : Str
  name : Str
  normalizedName : Str
  entityType : Option Str
  description : Option Str
  touchCount : Nat
  trajectoryCount : Nat
  contributorCount : Nat
  firstSeen : Nat
  lastSeen : Nat
deriving Repr, DecidableEq

/-- Row of table `entity_contribution`. -/
structure Contribution where
  id : Str
  entityId : Str
  nearAccountId : Str
  firstTrajectoryId : Str
  touchCount : Nat
  trajectoryCount : Nat
  firstSeen : Nat
  lastSeen : Nat
deriving Repr, DecidableEq

/-- Row of table `edge`. -/
structure Edge where
  id : Str
  sourceEntityId : Str
  targetEntityId : Str
  relationshipType : Option Str
  weight : Nat
  trajectoryCount : Nat
  contributorCount : Nat
  positiveOutcomes : Nat
  negativeOutcomes : Nat
  mixedOutcomes : Nat
  firstSeen : Nat
  lastSeen : Nat
deriving Repr, DecidableEq

/-- Row of table `cooccurrence`. -/
structure Cooccurrence where
  id : Str
  entityA : Str
  entityB : Str
  count : Nat
  windowCount : Nat
  trajectoryCount : Nat
  contributorCount : Nat
  lastUpdated : Nat
deriving Repr, DecidableEq

/-- Row of table `trajectory` (the unused `embedding` blob is omitted). -/
structure TrajectoryRow where
  id : Str
  nearAccountId : Str
  conversationId : Option Str
  inputText : Str
  inputHash : Int
  summary : Option Str
  startedAt : Nat
  completedAt : Option Nat
deriving Repr, DecidableEq

/-- Row of table `event`; `eventType` keeps the stored string
(`"touch" | "reason" | "decide" | "discover"`). -/
structure EventRow where
  id : Str
  trajectoryId : Str
  sequenceNum : Nat
  timestamp : Nat
  eventType : Str
  entityId : Option Str
  data : Option Str
deriving Repr, DecidableEq

/-- Row of table `message`. -/
structure MessageRow where
  id : Str
  conversationId : Str
  role : Str
  content : Str
  trajectoryId : Option Str
  createdAt : Nat
deriving Repr, DecidableEq

/-- Row of table `conversation`. -/
structure ConversationRow where
  id : Str
  nearAccountId : Str
  title : Option Str
  createdAt : Nat
  updatedAt : Nat
deriving Repr, DecidableEq

/-- The relational store. -/
structure Store where
  entities : List Entity := []
  contributions : List Contribution := []
  edges : List Edge := []
  cooccurrences : List Cooccurrence := []
  trajectories : List TrajectoryRow := []
  events : List EventRow := []
  messages : List MessageRow := []
  conversations : List ConversationRow := []
deriving Repr, DecidableEq

/-- In-process engine state: the store, the per-trajectory in-memory sequence
counters (`TrajectoryEngine.sequenceCounters`), and a counter generating the
opaque ids that `nanoid()` produces. -/
structure EngineState where
  store : Store := {}
  sequenceCounters : List (Str × Nat) := []
  nextId : Nat := 0
deriving Repr, DecidableEq

/-- Fresh opaque id (stands for `nanoid()`). -/
def genId (σ : EngineState) : Str × EngineState :=
  (("id" ++ Nat.repr σ.nextId).data, { σ with nextId := σ.nextId + 1 })

/-- `Map.get` on `sequenceCounters`. -/
def lookupCounter : List (Str × Nat) → Str → Option Nat
  | [], _ => none
  | p :: t, k => if p.1 = k then some p.2 else lookupCounter t k

/-- `Map.set` on `sequenceCounters`: replace in place, else append. -/
def setCounter : List (Str × Nat) → Str → Nat → List (Str × Nat)
  | [], k, v => [(k, v)]
  | p :: t, k, v => if p.1 = k then (k, v) :: t else p :: setCounter t k v

/-- `Map.delete` on `sequenceCounters`. -/
def removeCounter : List (Str × Nat) → Str → List (Str × Nat)
  | [], _ => []
  | p :: t, k => if p.1 = k then removeCounter t k else p :: removeCounter t k

/-! ## `TrajectoryEngine` (`src/api/src/services/trajectory.ts`) -/

/-- 32-bit two's-complement wrap (JS `x & x` after bitwise coercion). -/
def wrap32 (z : Int) : Int := ((z + 2 ^ 31) % 2 ^ 32) - 2 ^ 31

/-- `hashInput`: the 32-bit rolling hash `hash = (hash << 5) - hash + code`
(the final `toString(16)` rendering is not modelled; nothing reads it back). -/
def hashInput (input : Str) : Int :=
  input.foldl (fun h c => wrap32 (wrap32 (h * 32) - h + c.toNat)) 0

/-- `TrajectoryEngine.startTrajectory`. -/
def startTrajectory (σ : EngineState) (nearAccountId inputText : Str)
    (conversationId : Option Str) (now : Nat) : Str × EngineState :=
  let (id, σ) := genId σ
  let row : TrajectoryRow :=
    { id := id, nearAccountId := nearAccountId, conversationId := conversationId,
      inputText := inputText, inputHash := hashInput inputText,
      summary := none, startedAt := now, completedAt := none }
  let σ := { σ with store := { σ.store with trajectories := σ.store.trajectories ++ [row] } }
  (id, { σ with sequenceCounters := setCounter σ.sequenceCounters id 0 })

/-- `TrajectoryEngine.logEvent`. The serialised `data`/`_context` blob is the
opaque `data?` argument. -/
def logEvent (σ : EngineState) (trajectoryId : Str) (evType : Str)
    (entityId : Option Str) (data? : Option Str) (now : Nat) : Str × EngineState :=
  let (id, σ) := genId σ
  let sequenceNum := (lookupCounter σ.sequenceCounters trajectoryId).getD 0
  let σ := { σ with sequenceCounters := setCounter σ.sequenceCounters trajectoryId (sequenceNum + 1) }
  let row : EventRow :=
    { id := id, trajectoryId := trajectoryId, sequenceNum := sequenceNum,
      timestamp := now, eventType := evType, entityId := entityId, data := data? }
  let σ := { σ with store := { σ.store with events := σ.store.events ++ [row] } }
  let σ :=
    if evType = "touch".data ∧ entityId.isSome then
      { σ with store := { σ.store with entities := σ.store.entities.map (fun e =>
          if e.id = entityId.getD [] then
            { e with touchCount := e.touchCount + 1, lastSeen := now }
          else e) } }
    else σ
  (id, σ)

/-- `TrajectoryEngine.trackContribution` (private helper). -/
def trackContribution (σ : EngineState) (entityId nearAccountId trajectoryId : Str)
    (timestamp : Nat) : EngineState :=
  match σ.store.contributions.find?
      (fun c => decide (c.entityId = entityId ∧ c.nearAccountId = nearAccountId)) with
  | some existing =>
    { σ with store := { σ.store with contributions := σ.store.contributions.map (fun c =>
        if c.id = existing.id then
          { c with touchCount := existing.touchCount + 1, lastSeen := timestamp }
        else c) } }
  | none =>
    let (cid, σ) := genId σ
    let row : Contribution :=
      { id := cid, entityId := entityId, nearAccountId := nearAccountId,
        firstTrajectoryId := trajectoryId, touchCount := 1, trajectoryCount := 1,
        firstSeen := timestamp, lastSeen := timestamp }
    let σ := { σ with store := { σ.store with contributions := σ.store.contributions ++ [row] } }
    { σ with store := { σ.store with entities := σ.store.entities.map (fun e =>
        if e.id = entityId then { e with contributorCount := e.contributorCount + 1 } else e) } }

/-- `TrajectoryEngine.findOrCreateEntity`. -/
def findOrCreateEntity (σ : EngineState) (nearAccountId trajectoryId name : Str)
    (entityType? description? : Option Str) (now : Nat) : Str × EngineState :=
  let normalizedName := trimStr (lowerStr name)
  match σ.store.entities.find? (fun e => decide (e.normalizedName = normalizedName)) with
  | some existing =>
    let σ := { σ with store := { σ.store with entities := σ.store.entities.map (fun e =>
        if e.id = existing.id then
          { e with
            touchCount := e.touchCount + 1, lastSeen := now,
            entityType :=
              match entityType?, existing.entityType with
              | some t, none => some t
              | _, _ => e.entityType,
            description :=
              match description?, existing.description with
              | some d, none => some d
              | _, _ => e.description }
        else e) } }
    (existing.id, trackContribution σ existing.id nearAccountId trajectoryId now)
  | none =>
    let (entityId, σ) := genId σ
    let row : Entity :=
      { id := entityId, name := name, normalizedName := normalizedName,
        entityType := entityType?, description := description?,
        touchCount := 1, trajectoryCount := 1, contributorCount := 1,
        firstSeen := now, lastSeen := now }
    let σ := { σ with store := { σ.store with entities := σ.store.entities ++ [row] } }
    (entityId, trackContribution σ entityId nearAccountId trajectoryId now)

/-- Return shape of `completeTrajectory` (interface `EntityInfo`). -/
structure EntityInfo where
  id : Str
  name : Str
  entityType : Option Str
  description : Option Str
  touchCount : Nat
deriving Repr, DecidableEq

/-- Return shape of `completeTrajectory` (interface `EdgeInfo`). -/
structure EdgeInfo where
  id : Str
  sourceEntityId : Str
  targetEntityId : Str
  relationshipType : Option Str
  weight : Nat
deriving Repr, DecidableEq

/-- All unordered index pairs `i < j` of a list (the nested `for` loops of
`updateCooccurrences`). -/
def allPairs : List Str → List (Str × Str)
  | [] => []
  | a :: l => l.map (fun b => (a, b)) ++ allPairs l

/-- One co-occurrence upsert: canonical `(min, max)` id pair joined with `:`
(JS `[idI, idJ].sort()` is ascending lexicographic). Skips JS-falsy (empty)
ids as the `if (!idI || !idJ) continue` guard does. -/
def upsertCooccurrence (σ : EngineState) (idI idJ : Str) (timestamp : Nat) : EngineState :=
  if idI.isEmpty || idJ.isEmpty then σ
  else
    let entityA := if strLe idI idJ then idI else idJ
    let entityB := if strLe idI idJ then idJ else idI
    let coocId := entityA ++ ':' :: entityB
    match σ.store.cooccurrences.find? (fun c => decide (c.id = coocId)) with
    | some existing =>
      { σ with store := { σ.store with cooccurrences := σ.store.cooccurrences.map (fun c =>
          if c.id = coocId then
            { c with
              count := existing.count + 1, windowCount := existing.windowCount + 1,
              trajectoryCount := existing.trajectoryCount + 1, lastUpdated := timestamp }
          else c) } }
    | none =>
      { σ with store := { σ.store with cooccurrences := σ.store.cooccurrences ++
          [{ id := coocId, entityA := entityA, entityB := entityB,
             count := 1, windowCount := 1, trajectoryCount := 1, contributorCount := 1,
             lastUpdated := timestamp }] } }

/-- Loop body of `updateCooccurrences`. -/
def coocFold (timestamp : Nat) (σ : EngineState) (p : Str × Str) : EngineState :=
  upsertCooccurrence σ p.1 p.2 timestamp

/-- `TrajectoryEngine.updateCooccurrences` (private helper). -/
def updateCooccurrences (σ : EngineState) (entityIds : List Str) (timestamp : Nat) :
    EngineState :=
  if entityIds.length < 2 then σ
  else (allPairs entityIds).foldl (coocFold timestamp) σ

/-- Consecutive pairs `(l[i], l[i+1])` of a list. -/
def consecutivePairs : List Str → List (Str × Str)
  | a :: b :: l => (a, b) :: consecutivePairs (b :: l)
  | _ => []

/-- One directed-edge upsert of `strengthenEdges`: key `source:target`,
self-loops and JS-falsy ids skipped; returns the `EdgeInfo` pushed (if any). -/
def strengthenOneEdge (σ : EngineState) (sourceId targetId : Str) (timestamp : Nat) :
    Option EdgeInfo × EngineState :=
  if sourceId.isEmpty || targetId.isEmpty || decide (sourceId = targetId) then (none, σ)
  else
    let edgeId := sourceId ++ ':' :: targetId
    match σ.store.edges.find? (fun e => decide (e.id = edgeId)) with
    | some existing =>
      let σ := { σ with store := { σ.store with edges := σ.store.edges.map (fun e =>
          if e.id = edgeId then
            { e with
              weight := existing.weight + 1,
              trajectoryCount := existing.trajectoryCount + 1, lastSeen := timestamp }
          else e) } }
      (some { id := existing.id, sourceEntityId := existing.sourceEntityId,
              targetEntityId := existing.targetEntityId,
              relationshipType := existing.relationshipType,
              weight := existing.weight + 1 }, σ)
    | none =>
      let row : Edge :=
        { id := edgeId, sourceEntityId := sourceId, targetEntityId := targetId,
          relationshipType := none, weight := 1, trajectoryCount := 1, contributorCount := 1,
          positiveOutcomes := 0, negativeOutcomes := 0, mixedOutcomes := 0,
          firstSeen := timestamp, lastSeen := timestamp }
      let σ := { σ with store := { σ.store with edges := σ.store.edges ++ [row] } }
      (some { id := edgeId, sourceEntityId := sourceId, targetEntityId := targetId,
              relationshipType := none, weight := 1 }, σ)

/-- `TrajectoryEngine.strengthenEdges` (private helper): strengthen directed
edges between consecutively touched entities. -/
def strengthenFold (timestamp : Nat) (acc : List EdgeInfo × EngineState)
    (p : Str × Str) : List EdgeInfo × EngineState :=
  let r := strengthenOneEdge acc.2 p.1 p.2 timestamp
  (acc.1 ++ r.1.toList, r.2)

def strengthenEdges (σ : EngineState) (entityIds : List Str) (timestamp : Nat) :
    List EdgeInfo × EngineState :=
  if entityIds.length < 2 then ([], σ)
  else (consecutivePairs entityIds).foldl (strengthenFold timestamp) ([], σ)

/-- One strategy→outcome edge upsert of `trackOutcomes`: key
`strategy.id:outcome.id`, inserted with `relationshipType = "leads_to"`; an
existing edge only gets `weight`/`trajectoryCount` incremented. -/
def upsertOutcomeEdge (σ : EngineState) (strategyId outcomeId : Str) (timestamp : Nat) :
    EngineState :=
  let edgeId := strategyId ++ ':' :: outcomeId
  match σ.store.edges.find? (fun e => decide (e.id = edgeId)) with
  | some existing =>
    { σ with store := { σ.store with edges := σ.store.edges.map (fun e =>
        if e.id = edgeId then
          { e with
            weight := existing.weight + 1,
            trajectoryCount := existing.trajectoryCount + 1, lastSeen := timestamp }
        else e) } }
  | none =>
    { σ with store := { σ.store with edges := σ.store.edges ++
        [{ id := edgeId, sourceEntityId := strategyId, targetEntityId := outcomeId,
           relationshipType := some "leads_to".data, weight := 1, trajectoryCount := 1,
           contributorCount := 1, positiveOutcomes := 0, negativeOutcomes := 0,
           mixedOutcomes := 0, firstSeen := timestamp, lastSeen := timestamp }] } }

/-- Inner loop body of `trackOutcomes` (over the outcome entities). -/
def outcomesFold (timestamp : Nat) (strategyId : Str) (σ : EngineState)
    (o : Entity) : EngineState :=
  upsertOutcomeEdge σ strategyId o.id timestamp

/-- Outer loop body of `trackOutcomes` (over the strategy entities). -/
def strategiesFold (timestamp : Nat) (outcomes : List Entity) (σ : EngineState)
    (s : Entity) : EngineState :=
  outcomes.foldl (outcomesFold timestamp s.id) σ

/-- `TrajectoryEngine.trackOutcomes` (private helper). -/
def trackOutcomes (σ : EngineState) (entityIds : List Str) (timestamp : Nat) : EngineState :=
  if entityIds.isEmpty then σ
  else
    let entities := σ.store.entities.filter (fun e => decide (e.id ∈ entityIds))
    let outcomes := entities.filter (fun e => decide (e.entityType = some "outcome".data))
    let strategies := entities.filter (fun e => decide (e.entityType = some "strategy".data))
    if outcomes.isEmpty || strategies.isEmpty then σ
    else strategies.foldl (strategiesFold timestamp outcomes) σ

/-- Events of a trajectory in `sequenceNum` order (the `orderBy` read of
`completeTrajectory`; ascending, modelled by a descending sort on the negated
sequence number). -/
def trajectoryEventsOf (σ : EngineState) (trajectoryId : Str) : List EventRow :=
  sortDescBy (fun e => -(e.sequenceNum : Int))
    (σ.store.events.filter (fun e => decide (e.trajectoryId = trajectoryId)))

/-- `[...new Set(events.filter(touch ∧ entityId).map(entityId))]`. -/
def touchedIdsOf (events : List EventRow) : List Str :=
  firstDedup
    ((events.filter (fun e => e.eventType = "touch".data && e.entityId.isSome)).map
      (fun e => e.entityId.getD []))

/-- `[...new Set(events.filter(discover ∧ entityId).map(entityId))]`. -/
def discoveredIdsOf (events : List EventRow) : List Str :=
  firstDedup
    ((events.filter (fun e => e.eventType = "discover".data && e.entityId.isSome)).map
      (fun e => e.entityId.getD []))

/-- Stage 1 of `completeTrajectory`: set `completedAt`/`summary`. -/
def markComplete (σ : EngineState) (trajectoryId : Str) (summary? : Option Str)
    (now : Nat) : EngineState :=
  { σ with store := { σ.store with trajectories := σ.store.trajectories.map (fun t =>
      if t.id = trajectoryId then { t with completedAt := some now, summary := summary? }
      else t) } }

/-- Stage 4a of `completeTrajectory`: `trajectoryCount + 1` on every entity in
`allEntityIds` (a no-op `UPDATE` when the id list is empty, as in the source). -/
def bumpEntityCounts (σ : EngineState) (allEntityIds : List Str) : EngineState :=
  if allEntityIds.isEmpty then σ
  else { σ with store := { σ.store with entities := σ.store.entities.map (fun e =>
      if decide (e.id ∈ allEntityIds) then
        { e with trajectoryCount := e.trajectoryCount + 1 } else e) } }

/-- Stage 4b of `completeTrajectory`: `trajectoryCount + 1` on the account's
contribution row of every entity in `allEntityIds`. -/
def bumpContributionCounts (σ : EngineState) (allEntityIds : List Str)
    (nearAccountId : Str) : EngineState :=
  { σ with store := { σ.store with contributions := σ.store.contributions.map (fun c =>
      if decide (c.entityId ∈ allEntityIds ∧ c.nearAccountId = nearAccountId) then
        { c with trajectoryCount := c.trajectoryCount + 1 } else c) } }

/-- `TrajectoryEngine.completeTrajectory`. Note: the source marks the
trajectory complete and re-runs every aggregate update unconditionally — there
is no `completedAt` check on entry. -/
def completeTrajectory (σ : EngineState) (trajectoryId nearAccountId : Str)
    (summary? : Option Str) (now : Nat) :
    (List EntityInfo × List EntityInfo × List EdgeInfo) × EngineState :=
  let σ1 := markComplete σ trajectoryId summary? now
  -- Events in sequenceNum order
  let events := trajectoryEventsOf σ1 trajectoryId
  let touchedEntityIds := touchedIdsOf events
  let discoveredEntityIds := discoveredIdsOf events
  let allEntityIds := firstDedup (touchedEntityIds ++ discoveredEntityIds)
  let σ2 := bumpEntityCounts σ1 allEntityIds
  let σ3 := bumpContributionCounts σ2 allEntityIds nearAccountId
  -- Co-occurrences, consecutive-touch edges, strategy→outcome edges
  let σ4 := updateCooccurrences σ3 allEntityIds now
  let se := strengthenEdges σ4 touchedEntityIds now
  let edgesTraversed := se.1
  let σ5 := trackOutcomes se.2 allEntityIds now
  -- Entity details for the return value
  let entities := σ5.store.entities.filter (fun e => decide (e.id ∈ allEntityIds))
  let info := fun (id : Str) =>
    (entities.find? (fun e => decide (e.id = id))).map (fun e =>
      ({ id := e.id, name := e.name, entityType := e.entityType,
         description := e.description, touchCount := e.touchCount } : EntityInfo))
  let entitiesTouched := touchedEntityIds.filterMap info
  let entitiesDiscovered := discoveredEntityIds.filterMap info
  let σ6 := { σ5 with sequenceCounters := removeCounter σ5.sequenceCounters trajectoryId }
  ((entitiesDiscovered, entitiesTouched, edgesTraversed), σ6)

/-! ## `GraphReasoner` (`src/api/src/services/graph-reasoner.ts`) -/

/-- Interface `EntityInput`. -/
structure EntityInput where
  name : Str
  type : Option Str
deriving Repr, DecidableEq

/-- Interface `ResolvedEntity`. -/
structure ResolvedEntity where
  id : Str
  name : Str
  entityType : Option Str
  touchCount : Nat
  trajectoryCount : Nat
  contributorCount : Nat
deriving Repr, DecidableEq

/-- Interface `OutcomeProjection.evidence`. -/
structure EvidenceCounts where
  edgeWeight : Nat
  positiveCount : Nat
  negativeCount : Nat
  mixedCount : Nat
  contributorCount : Nat
deriving Repr, DecidableEq

/-- Interface `OutcomeProjection`. -/
structure OutcomeProjection where
  outcome : Str
  outcomeId : Str
  probability : ℚ
  evidence : EvidenceCounts
deriving Repr, DecidableEq

/-- Interface `Differentiator.outcomeShift` halves. -/
structure RateAndWeight where
  positiveRate : ℚ
  totalWeight : Nat
deriving Repr, DecidableEq

/-- Interface `Differentiator`. -/
structure Differentiator where
  entity : ResolvedEntity
  role : Option Str
  effect : Str
  magnitude : ℚ
  cooccurrenceStrength : Nat
  withEntity : RateAndWeight
  withoutEntity : RateAndWeight
deriving Repr, DecidableEq

/-- Interface `SimulationResult.evidence`. -/
structure EvidenceSummary where
  totalObservations : Nat
  outcomeCount : Nat
  hasPatterns : Bool
deriving Repr, DecidableEq

/-- Interface `SimulationResult`. -/
structure SimulationResult where
  resolved : List ResolvedEntity
  unresolved : List Str
  outcomes : List OutcomeProjection
  differentiators : List Differentiator
  evidence : EvidenceSummary
deriving Repr, DecidableEq

/-- `GraphReasoner.resolveEntities`, one input: exact match on
`normalizedName` (+ `entityType` when a type is given), else partial
`LIKE %name%` match ordered by `touchCount DESC LIMIT 1`. -/
def resolveOne (st : Store) (inp : EntityInput) : Option Entity :=
  let normalized := trimStr (lowerStr inp.name)
  let typeOk := fun (e : Entity) =>
    match inp.type with
    | some t => decide (e.entityType = some t)
    | none => true
  match st.entities.find? (fun e => decide (e.normalizedName = normalized) && typeOk e) with
  | some e => some e
  | none =>
    let candidates := st.entities.filter
      (fun e => containsSub normalized e.normalizedName && typeOk e)
    (sortDescBy (fun e => e.touchCount) candidates).head?

/-- `GraphReasoner.resolveEntities` over the input list. -/
def resolveEntities (st : Store) (inputs : List EntityInput) :
    List ResolvedEntity × List Str :=
  inputs.foldl
    (fun acc inp =>
      match resolveOne st inp with
      | some e =>
        (acc.1 ++ [{ id := e.id, name := e.name, entityType := e.entityType,
                     touchCount := e.touchCount, trajectoryCount := e.trajectoryCount,
                     contributorCount := e.contributorCount }], acc.2)
      | none => (acc.1, acc.2 ++ [inp.name]))
    ([], [])

/-- Inner-join row of `edge` with its target (resp. source) `entity`. -/
def joinTarget (st : Store) (ed : Edge) : Option (Edge × Entity) :=
  (st.entities.find? (fun ent => decide (ent.id = ed.targetEntityId))).bind
    (fun ent => if ent.entityType = some "outcome".data then some (ed, ent) else none)

def joinSource (st : Store) (ed : Edge) : Option (Edge × Entity) :=
  (st.entities.find? (fun ent => decide (ent.id = ed.sourceEntityId))).bind
    (fun ent => if ent.entityType = some "outcome".data then some (ed, ent) else none)

/-- Per-outcome merged evidence (the `outcomeMap` values). -/
structure MergedOutcome where
  outcomeId : Str
  outcomeName : Str
  totalWeight : Nat
  positiveCount : Nat
  negativeCount : Nat
  mixedCount : Nat
  contributorCount : Nat
deriving Repr, DecidableEq

/-- One step of the combine-and-dedupe loop over `allEdges` (JS `Map` keeps
insertion order; an update hits the existing slot, a miss appends). -/
def mergeStep (m : List MergedOutcome) (row : Edge × Entity) : List MergedOutcome :=
  if m.any (fun o => decide (o.outcomeId = row.2.id)) then
    m.map (fun o =>
      if o.outcomeId = row.2.id then
        { o with
          totalWeight := o.totalWeight + row.1.weight,
          positiveCount := o.positiveCount + row.1.positiveOutcomes,
          negativeCount := o.negativeCount + row.1.negativeOutcomes,
          mixedCount := o.mixedCount + row.1.mixedOutcomes,
          contributorCount := max o.contributorCount row.1.contributorCount }
      else o)
  else
    m ++ [{ outcomeId := row.2.id, outcomeName := row.2.name,
            totalWeight := row.1.weight, positiveCount := row.1.positiveOutcomes,
            negativeCount := row.1.negativeOutcomes, mixedCount := row.1.mixedOutcomes,
            contributorCount := row.1.contributorCount }]

/-- The per-outcome distribution row built from a merged entry
(`probability = weight / totalWeight`, `0` when `totalWeight = 0`). -/
def buildProjection (totalWeight : Nat) (o : MergedOutcome) : OutcomeProjection :=
  { outcome := o.outcomeName, outcomeId := o.outcomeId,
    probability :=
      if 0 < totalWeight then (o.totalWeight : ℚ) / (totalWeight : ℚ) else 0,
    evidence :=
      { edgeWeight := o.totalWeight, positiveCount := o.positiveCount,
        negativeCount := o.negativeCount, mixedCount := o.mixedCount,
        contributorCount := o.contributorCount } }

/-- `GraphReasoner.projectOutcomesFromEdges`. Faithfully keeps the source's
early return: when no forward edge (input → outcome) exists, the reverse
(outcome → input) edges are never consulted. -/
def projectOutcomesFromEdges (st : Store) (inputEntityIds : List Str) :
    List OutcomeProjection :=
  let outcomeEdges := sortDescBy (fun r => r.1.weight)
    ((st.edges.filter (fun ed => decide (ed.sourceEntityId ∈ inputEntityIds))).filterMap
      (joinTarget st))
  if outcomeEdges.isEmpty then []
  else
    let reverseEdges :=
      (st.edges.filter (fun ed => decide (ed.targetEntityId ∈ inputEntityIds))).filterMap
        (joinSource st)
    let allEdges := outcomeEdges ++ reverseEdges
    let merged := allEdges.foldl mergeStep []
    let totalWeight := (merged.map (fun o => o.totalWeight)).sum
    sortDescBy (fun p => p.probability) (merged.map (buildProjection totalWeight))

/-- `GraphReasoner.getOutcomeEdgesForEntity` row shape. -/
structure OutcomeEdgeRow where
  outcomeId : Str
  outcomeName : Str
  weight : Nat
  positiveCount : Nat
  negativeCount : Nat
deriving Repr, DecidableEq

/-- `GraphReasoner.getOutcomeEdgesForEntity` (forward edges only). -/
def getOutcomeEdgesForEntity (st : Store) (entityId : Str) : List OutcomeEdgeRow :=
  ((st.edges.filter (fun ed => decide (ed.sourceEntityId = entityId))).filterMap
    (joinTarget st)).map
    (fun r =>
      { outcomeId := r.2.id, outcomeName := r.2.name, weight := r.1.weight,
        positiveCount := r.1.positiveOutcomes, negativeCount := r.1.negativeOutcomes })

/-- Result shape of `computeOutcomeShift`. -/
structure OutcomeShift where
  effect : Str
  magnitude : ℚ
  withEntity : RateAndWeight
  withoutEntity : RateAndWeight
deriving Repr, DecidableEq

/-- `GraphReasoner.computeOutcomeShift`: positive rate against the hard-coded
`0.5` baseline. -/
def computeOutcomeShift (outcomeEdges : List OutcomeEdgeRow) : OutcomeShift :=
  let totalWeight := (outcomeEdges.map (fun e => e.weight)).sum
  let totalPositive := (outcomeEdges.map (fun e => e.positiveCount)).sum
  let totalNegative := (outcomeEdges.map (fun e => e.negativeCount)).sum
  let totalOutcomes := totalPositive + totalNegative
  let positiveRate : ℚ :=
    if 0 < totalOutcomes then (totalPositive : ℚ) / (totalOutcomes : ℚ) else 1 / 2
  let baselineRate : ℚ := 1 / 2
  let magnitude := |positiveRate - baselineRate|
  let effect : Str :=
    if baselineRate + 1 / 10 < positiveRate then "improves".data
    else if positiveRate < baselineRate - 1 / 10 then "reduces".data
    else "mixed".data
  { effect := effect, magnitude := magnitude,
    withEntity := { positiveRate := positiveRate, totalWeight := totalWeight },
    withoutEntity := { positiveRate := baselineRate, totalWeight := 0 } }

/-- The co-occurrence ⋈ entity rows of `findDifferentiatorsFromStructure`:
join on either endpoint, where either endpoint is an input id and the joined
entity is a context/constraint/strategy. -/
def coocJoinRows (st : Store) (inputEntityIds : List Str) : List (Cooccurrence × Entity) :=
  ((st.cooccurrences.map (fun co =>
    st.entities.filterMap (fun ent =>
      if (co.entityB = ent.id ∨ co.entityA = ent.id)
          ∧ (co.entityA ∈ inputEntityIds ∨ co.entityB ∈ inputEntityIds)
          ∧ (ent.entityType = some "context".data ∨ ent.entityType = some "constraint".data
             ∨ ent.entityType = some "strategy".data) then
        some (co, ent)
      else none))).flatten)

/-- Loop body of `findDifferentiatorsFromStructure`: one candidate row either
passes the `> 0.1` magnitude filter and yields a differentiator, or is
dropped (the leading guard mirrors the redundant `continue` of the source). -/
def differentiatorOf (st : Store) (inputEntityIds : List Str)
    (r : Cooccurrence × Entity) : Option Differentiator :=
  if decide (r.2.id ∈ inputEntityIds) then none
  else
    let shift := computeOutcomeShift (getOutcomeEdgesForEntity st r.2.id)
    if 1 / 10 < |shift.magnitude| then
      some { entity := { id := r.2.id, name := r.2.name, entityType := r.2.entityType,
                         touchCount := r.2.touchCount, trajectoryCount := r.2.trajectoryCount,
                         contributorCount := r.2.contributorCount },
             role := r.2.entityType, effect := shift.effect, magnitude := shift.magnitude,
             cooccurrenceStrength := r.1.count,
             withEntity := shift.withEntity, withoutEntity := shift.withoutEntity }
    else none

/-- `GraphReasoner.findDifferentiatorsFromStructure`. -/
def findDifferentiatorsFromStructure (st : Store) (inputEntityIds : List Str) :
    List Differentiator :=
  let cooccurrences := sortDescBy (fun r => r.1.count) (coocJoinRows st inputEntityIds)
  let candidateEntities :=
    (cooccurrences.filter (fun r => !(decide (r.2.id ∈ inputEntityIds)))).take 20
  let differentiators := candidateEntities.filterMap (differentiatorOf st inputEntityIds)
  (sortDescBy (fun d => d.magnitude) differentiators).take 5

/-- `GraphReasoner.emptyResult`. -/
def emptyResult (unresolved : List Str) : SimulationResult :=
  { resolved := [], unresolved := unresolved, outcomes := [], differentiators := [],
    evidence := { totalObservations := 0, outcomeCount := 0, hasPatterns := false } }

/-- `GraphReasoner.simulate`. -/
def simulate (st : Store) (inputs : List EntityInput) : SimulationResult :=
  let (resolved, unresolved) := resolveEntities st inputs
  if resolved.isEmpty then emptyResult unresolved
  else
    let entityIds := resolved.map (fun e => e.id)
    let outcomes := projectOutcomesFromEdges st entityIds
    let differentiators := findDifferentiatorsFromStructure st entityIds
    let totalObservations := (outcomes.map (fun o => o.evidence.edgeWeight)).sum
    { resolved := resolved, unresolved := unresolved, outcomes := outcomes,
      differentiators := differentiators,
      evidence :=
        { totalObservations := totalObservations, outcomeCount := outcomes.length,
          hasPatterns := !outcomes.isEmpty || !differentiators.isEmpty } }

/-! ## Counterfactual (`GraphReasoner.counterfactual` / `compareOutcomes`) -/

/-- The input-swap step of `GraphReasoner.counterfactual` (lines 170–188):
replace every element matching `from` (case-insensitive name, and type when
`from.type` is given) by `to`; if no *name* changed, instead remove all
elements named like `from` and append `to`. -/
def computeAlternativeInputs (baseInputs : List EntityInput)
    (fromInp toInp : EntityInput) : List EntityInput :=
  let alternativeInputs := baseInputs.map (fun input =>
    let matchesFrom :=
      lowerStr input.name = lowerStr fromInp.name
        ∧ (fromInp.type = none ∨ input.type = fromInp.type)
    if matchesFrom then toInp else input)
  let swapped := (alternativeInputs.zip baseInputs).any
    (fun p => decide (p.1.name ≠ p.2.name))
  if swapped then alternativeInputs
  else
    (baseInputs.filter (fun input =>
      decide (lowerStr input.name ≠ lowerStr fromInp.name))) ++ [toInp]

/-- One row of `comparison.outcomeShifts`. -/
structure OutcomeShiftRow where
  outcome : Str
  originalProbability : ℚ
  alternativeProbability : ℚ
  delta : ℚ
deriving Repr, DecidableEq

/-- Result of `compareOutcomes` (the templated `recommendation` display string
is not modelled; nothing reads it back). -/
structure ComparisonResult where
  outcomeShifts : List OutcomeShiftRow
  netEffect : Str
deriving Repr, DecidableEq

/-- The positive lexical markers of `compareOutcomes`. -/
def positiveMarkers : List Str :=
  ["improved".data, "success".data, "understanding".data, "mastery".data, "effective".data]

/-- `GraphReasoner.compareOutcomes`. -/
def compareOutcomes (original alternative : SimulationResult) : ComparisonResult :=
  let allOutcomes := firstDedup
    (original.outcomes.map (fun o => o.outcome)
      ++ alternative.outcomes.map (fun o => o.outcome))
  let outcomeShifts := sortDescBy (fun s => |s.delta|)
    (allOutcomes.map (fun nm =>
      let origProb :=
        ((original.outcomes.find? (fun o => decide (o.outcome = nm))).map
          (fun o => o.probability)).getD 0
      let altProb :=
        ((alternative.outcomes.find? (fun o => decide (o.outcome = nm))).map
          (fun o => o.probability)).getD 0
      { outcome := nm, originalProbability := origProb,
        alternativeProbability := altProb, delta := altProb - origProb }))
  let positiveShift : ℚ :=
    ((outcomeShifts.filter (fun s =>
      positiveMarkers.any (fun p => containsSub p (lowerStr s.outcome)))).map
      (fun s => s.delta)).sum
  let netEffect : Str :=
    if |positiveShift| < 1 / 20 then "neutral".data
    else if 0 < positiveShift then "positive".data
    else "negative".data
  let minEvidence :=
    min original.evidence.totalObservations alternative.evidence.totalObservations
  let netEffect := if minEvidence < 5 then "uncertain".data else netEffect
  { outcomeShifts := outcomeShifts, netEffect := netEffect }

/-! ## Tag extraction (`AgentService.extractEntities`, agent.ts lines 136–167)

The two global regex passes `\[\[(\w+):([^\]]+)\]\]` and `\[\[([^\]:]+)\]\]`
are modelled by position scanners: at each position the regex either matches
(deterministically — the greedy runs cannot backtrack here since `\w` excludes
`:` and `[^\]]` excludes `]`) and the scan resumes after the match, or the
scan advances one character. -/

/-- After the leading `[[` and the captured run, the typed regex needs the
literal `:`; after the content run it needs the literal `]]`. These two
continuation checks are shared by both regexes. -/
def afterContent : Str → Str → Option (Str × Str)
  | content, c1 :: c2 :: r =>
    if c1 = ']' ∧ c2 = ']' then some (content, r) else none
  | _, _ => none

/-- Attempt of the typed regex `\[\[(\w+):([^\]]+)\]\]` at the current
position; returns the two raw capture groups and the rest of the input.
(The greedy runs cannot backtrack: `\w` excludes `:` and `[^\]]` excludes
`]`.) -/
def typedMatchAt (l : Str) : Option ((Str × Str) × Str) :=
  match l with
  | c1 :: c2 :: rest =>
    if c1 = '[' ∧ c2 = '[' then
      let w := rest.takeWhile isWordChar
      let r1 := rest.dropWhile isWordChar
      if w.isEmpty then none
      else
        match r1 with
        | c3 :: r2 =>
          if c3 = ':' then
            let content := r2.takeWhile (fun c => decide (c ≠ ']'))
            let r3 := r2.dropWhile (fun c => decide (c ≠ ']'))
            if content.isEmpty then none
            else (afterContent content r3).map (fun p => ((w, p.1), p.2))
          else none
        | [] => none
    else none
  | _ => none

/-- Attempt of the untyped regex `\[\[([^\]:]+)\]\]` at the current position. -/
def untypedMatchAt (l : Str) : Option (Str × Str) :=
  match l with
  | c1 :: c2 :: rest =>
    if c1 = '[' ∧ c2 = '[' then
      let content := rest.takeWhile (fun c => decide (c ≠ ']' ∧ c ≠ ':'))
      let r1 := rest.dropWhile (fun c => decide (c ≠ ']' ∧ c ≠ ':'))
      if content.isEmpty then none
      else afterContent content r1
    else none
  | _ => none

/-- `true` when the string contains the two-character substring `[[`
(anywhere an untyped or typed match could start). -/
def hasAdjacentBrackets : Str → Bool
  | c1 :: c2 :: rest => decide (c1 = '[' ∧ c2 = '[') || hasAdjacentBrackets (c2 :: rest)
  | _ => false

/-- Global scan with the typed regex (`regex.exec` loop); fuel-indexed, one
unit of fuel per consumed position. -/
def scanTypedFuel : Nat → Str → List (Str × Str)
  | 0, _ => []
  | _ + 1, [] => []
  | fuel + 1, c :: cs =>
    match typedMatchAt (c :: cs) with
    | some (p, rest) => p :: scanTypedFuel fuel rest
    | none => scanTypedFuel fuel cs

/-- Global scan with the untyped regex. -/
def scanUntypedFuel : Nat → Str → List Str
  | 0, _ => []
  | _ + 1, [] => []
  | fuel + 1, c :: cs =>
    match untypedMatchAt (c :: cs) with
    | some (content, rest) => content :: scanUntypedFuel fuel rest
    | none => scanUntypedFuel fuel cs

def scanTyped (s : Str) : List (Str × Str) := scanTypedFuel s.length s

def scanUntyped (s : Str) : List Str := scanUntypedFuel s.length s

/-- Interface `ExtractedEntity`. -/
structure ExtractedEntity where
  name : Str
  type : Str
deriving Repr, DecidableEq

/-- The shared `seen`-set deduplication loop of `extractEntities`, keyed by
`type ++ ":" ++ name`. -/
def dedupEntities : List (Str × Str) → List Str → List ExtractedEntity
  | [], _ => []
  | (t, n) :: rest, seen =>
    let key := t ++ ':' :: n
    if decide (key ∈ seen) then dedupEntities rest seen
    else { name := n, type := t } :: dedupEntities rest (key :: seen)

/-- `AgentService.extractEntities`: typed pass (type `toLowerCase().trim()`,
name `trim().toLowerCase()`), then untyped pass as type `"topic"`, shared
dedup set. -/
def extractEntities (s : Str) : List ExtractedEntity :=
  dedupEntities
    ((scanTyped s).map (fun p => (trimStr (lowerStr p.1), lowerStr (trimStr p.2)))
      ++ (scanUntyped s).map (fun n => ("topic".data, lowerStr (trimStr n))))
    []

/-- Re-emission of an extracted pair as the literal string `[[type:name]]`. -/
def emitTag (e : ExtractedEntity) : Str :=
  '[' :: '[' :: e.type ++ ':' :: e.name ++ [']', ']']

/-! ## Per-turn orchestration (`AgentService.processMessage`, agent.ts 281–509)

Modelled up to its externally-supplied LLM response (`responseContent` is a
parameter). The read-only simulation of step 6 and the conversation-history
read of step 7 only feed the LLM prompt and opaque event payloads, so they do
not appear in the state evolution; message persistence is kept. -/

/-- Steps 5 of `processMessage`: find-or-create and log a `touch` for each
tag extracted from the user message, accumulating the touched entity ids. -/
def touchUserEntities (σ : EngineState) (nearAccountId trajectoryId : Str)
    (mentioned : List ExtractedEntity) (now : Nat) : List Str × EngineState :=
  mentioned.foldl
    (fun acc entity =>
      let (entityId, σ) := findOrCreateEntity acc.2 nearAccountId trajectoryId
        entity.name (some entity.type) none now
      let (_, σ) := logEvent σ trajectoryId "touch".data (some entityId) none now
      (acc.1 ++ [entityId], σ))
    ([], σ)

/-- Step 11 of `processMessage`: find-or-create each tag of the assistant
response; `discover` if its id was not touched from the user message, `touch`
otherwise. Returns the discovered ids. -/
def recordResponseEntities (σ : EngineState) (nearAccountId trajectoryId : Str)
    (entitiesTouched : List Str) (responseEntities : List ExtractedEntity) (now : Nat) :
    List Str × EngineState :=
  responseEntities.foldl
    (fun acc entity =>
      let (entityId, σ) := findOrCreateEntity acc.2 nearAccountId trajectoryId
        entity.name (some entity.type) none now
      if decide (entityId ∈ entitiesTouched) then
        let (_, σ) := logEvent σ trajectoryId "touch".data (some entityId) none now
        (acc.1, σ)
      else
        let (_, σ) := logEvent σ trajectoryId "discover".data (some entityId) none now
        (acc.1 ++ [entityId], σ))
    ([], σ)

/-- `AgentService.processMessage` for one turn in an existing conversation:
start trajectory, persist the user message, touch the user tags, log the
`reason` event, record the response tags, log the `decide` event, complete
the trajectory, persist the assistant message. `responseContent` is the
externally-produced LLM output. -/
def processTurn (σ : EngineState) (nearAccountId message : Str) (convId : Str)
    (responseContent : Str) (now : Nat) :
    (List EntityInfo × List EntityInfo × List EdgeInfo) × EngineState :=
  let (trajectoryId, σ) := startTrajectory σ nearAccountId message (some convId) now
  let (userMessageId, σ) := genId σ
  let σ := { σ with store := { σ.store with messages := σ.store.messages ++
      [{ id := userMessageId, conversationId := convId, role := "user".data,
         content := message, trajectoryId := none, createdAt := now }] } }
  let mentionedEntities := extractEntities message
  let (entitiesTouched, σ) := touchUserEntities σ nearAccountId trajectoryId
    mentionedEntities now
  let (_, σ) := logEvent σ trajectoryId "reason".data none none now
  let responseEntities := extractEntities responseContent
  let (_, σ) := recordResponseEntities σ nearAccountId trajectoryId entitiesTouched
    responseEntities now
  let (_, σ) := logEvent σ trajectoryId "decide".data none none now
  let (trajectoryResult, σ) := completeTrajectory σ trajectoryId nearAccountId
    (some ("Response to: ".data ++ message.take 50)) now
  let (assistantMessageId, σ) := genId σ
  let σ := { σ with store := { σ.store with messages := σ.store.messages ++
      [{ id := assistantMessageId, conversationId := convId, role := "assistant".data,
         content := responseContent, trajectoryId := some trajectoryId,
         createdAt := now }] } }
  (trajectoryResult, σ)

/-! ## Claim C1 — idempotence of `completeTrajectory`

The source of `completeTrajectory` (trajectory.ts 285–418) has no
`completedAt` gate: it unconditionally re-marks the trajectory and re-runs
every aggregate update, so a replay increments the counters again. -/

/-- C1 scenario: one trajectory, one entity, one touch, then two calls to
`completeTrajectory`. -/
def c1Start : Str × EngineState :=
  startTrajectory ({} : EngineState) "acct".data "hello".data none 0

def c1Entity : Str × EngineState :=
  findOrCreateEntity c1Start.2 "acct".data c1Start.1 "Fractions".data
    (some "topic".data) none 1

def c1Logged : EngineState :=
  (logEvent c1Entity.2 c1Start.1 "touch".data (some c1Entity.1) none 2).2

def c1Once : (List EntityInfo × List EntityInfo × List EdgeInfo) × EngineState :=
  completeTrajectory c1Logged c1Start.1 "acct".data (some "sum".data) 3

def c1Twice : (List EntityInfo × List EntityInfo × List EdgeInfo) × EngineState :=
  completeTrajectory c1Once.2 c1Start.1 "acct".data (some "sum".data) 4

/-- **C1** (code bug). The claim — and §4.3.3 of the specification — require
`completeTrajectory` to check `completedAt` on entry and to perform no counter
increment on a replay. The source has no such check: on a trajectory that
touched one entity, the first completion leaves `trajectoryCount = 2` on the
entity and `2` on its contribution row, and the *second* call increments both
again to `3` (while returning the same cached-looking summary lists). -/
theorem completeTrajectory_not_idempotent :
    ((c1Once.2.store.trajectories.find? (fun t => decide (t.id = c1Start.1))).map
        (fun t => t.completedAt)) = some (some 3)
    ∧ (c1Once.2.store.entities.map (fun e => e.trajectoryCount)) = [2]
    ∧ (c1Twice.2.store.entities.map (fun e => e.trajectoryCount)) = [3]
    ∧ (c1Once.2.store.contributions.map (fun c => c.trajectoryCount)) = [2]
    ∧ (c1Twice.2.store.contributions.map (fun c => c.trajectoryCount)) = [3]
    ∧ c1Twice.1 = c1Once.1 := by
  decide

/-! ## Claim C2 — `findOrCreateEntity` contributor invariants

For a brand-new name the source inserts the entity with
`contributorCount = 1` (trajectory.ts 208–219) and then `trackContribution`
creates the first contribution row *and increments `contributorCount` again*
(lines 258–277), so one call ends with `contributorCount = 2` over a single
contribution row, and the claimed chain
`touchCount ≥ trajectoryCount ≥ contributorCount` fails (`1 ≥ 1 ≥ 2`). -/

def c2State : EngineState :=
  (findOrCreateEntity ({} : EngineState) "acct".data "t1".data "Fractions".data
    (some "topic".data) none 0).2

/-- **C2** (code bug). After the very first `findOrCreateEntity` for a
brand-new name by one account, the claim requires `contributorCount = 1`
(equal to the number of distinct contribution rows) and
`touchCount ≥ trajectoryCount ≥ contributorCount`. The source instead leaves
`touchCount = 1, trajectoryCount = 1, contributorCount = 2` with exactly one
contribution row. -/
theorem findOrCreateEntity_double_counts_contributor :
    (c2State.store.entities.map
      (fun e => (e.touchCount, e.trajectoryCount, e.contributorCount))) = [(1, 1, 2)]
    ∧ c2State.store.contributions.length = 1
    ∧ (c2State.store.entities.map (fun e => e.normalizedName)) = ["fractions".data]
    ∧ ∃ e ∈ c2State.store.entities, ¬ (e.trajectoryCount ≥ e.contributorCount) := by
  decide

/-! ## Claim C3 — fresh store, one typed message

`processMessage` on `"Teaching [[topic:fractions]] with [[strategy:visual
models]]"` over an empty store. The edge and co-occurrence facts of the claim
hold, but each entity ends with `touchCount = 2` (counted once by
`findOrCreateEntity` and once by the `touch` `logEvent`) and
`contributorCount = 2` (the C2 double count), not `1` as claimed. -/

def c3Message : Str :=
  "Teaching [[topic:fractions]] with [[strategy:visual models]]".data

def c3State : EngineState :=
  (processTurn ({} : EngineState) "acct1".data c3Message "conv1".data
    "No tags in this response.".data 7).2

/-- **C3** (code bug). Exactly two entities are created, one directed edge
from the first-touched to the second with weight 1, and one co-occurrence row
with count 1 — but the entities end with `touchCount = 2` and
`contributorCount = 2`, not the claimed `touchCount = 1`,
`contributorCount = 1`. -/
theorem processMessage_fresh_counts :
    (c3State.store.entities.map (fun e =>
      (e.name, e.entityType, e.touchCount, e.trajectoryCount, e.contributorCount)))
      = [("fractions".data, some "topic".data, 2, 2, 2),
         ("visual models".data, some "strategy".data, 2, 2, 2)]
    ∧ (c3State.store.edges.map (fun e =>
        (e.sourceEntityId, e.targetEntityId, e.weight, e.relationshipType)))
      = [((c3State.store.entities.map (fun e => e.id)).headI,
          (c3State.store.entities.map (fun e => e.id)).getLastI, 1, none)]
    ∧ (c3State.store.cooccurrences.map (fun c => c.count)) = [1]
    ∧ c3State.store.contributions.length = 2 := by
  decide

/-! ## Claim C4 — bidirectional outcome projection

`projectOutcomesFromEdges` (graph-reasoner.ts 270–367) returns early with `[]`
when the forward query finds no edge (line 292), *before* the reverse query
runs — despite the adjacent comment "Also check edges where input entities
are targets (bidirectional)" and the specification's bidirectional rule. -/

/-- C4 store: a strategy `s1`, an outcome `o1`, and a single historic edge
written in the reverse orientation `o1 → s1`. -/
def c4Store : Store :=
  { entities :=
      [{ id := "s1".data, name := "S".data, normalizedName := "s".data,
         entityType := some "strategy".data, description := none, touchCount := 3,
         trajectoryCount := 1, contributorCount := 1, firstSeen := 0, lastSeen := 0 },
       { id := "o1".data, name := "O".data, normalizedName := "o".data,
         entityType := some "outcome".data, description := none, touchCount := 1,
         trajectoryCount := 1, contributorCount := 1, firstSeen := 0, lastSeen := 0 }],
    edges :=
      [{ id := "o1:s1".data, sourceEntityId := "o1".data, targetEntityId := "s1".data,
         relationshipType := none, weight := 4, trajectoryCount := 1,
         contributorCount := 1, positiveOutcomes := 0, negativeOutcomes := 0,
         mixedOutcomes := 0, firstSeen := 0, lastSeen := 0 }] }

/-- **C4** (code bug). The claim (and the spec) say reverse edges alone make
the outcome projection non-empty. In the source the early return fires when no
forward edge exists: `simulate` resolves the strategy, a reverse
outcome-edge `o1 → s1` is present, yet `outcomes = []`. -/
theorem projectOutcomes_ignores_reverse_only_edges :
    ((simulate c4Store [{ name := "s".data, type := none }]).resolved.map
      (fun r => r.id)) = ["s1".data]
    ∧ (c4Store.edges.filter (fun e =>
        decide (e.targetEntityId ∈ ["s1".data]))).length = 1
    ∧ ((c4Store.edges.filter (fun e =>
        decide (e.sourceEntityId ∈ ["s1".data]))).filterMap (joinTarget c4Store)) = []
    ∧ (simulate c4Store [{ name := "s".data, type := none }]).outcomes = [] := by
  decide

/-! ## Claim C5 — strategy→outcome edges

`trackOutcomes` runs *after* `strengthenEdges` and shares its `source:target`
edge keys. When the strategy and the outcome were touched consecutively,
`strengthenEdges` has already created the `S:O` edge (with
`relationshipType = null`, weight 1) and `trackOutcomes` merely increments it
to weight 2 without ever setting `"leads_to"`. The claim therefore fails in
the adjacent case; what is true is that the `S:O` edge always *exists*, and
that it carries `"leads_to"` with weight 1 exactly in the non-adjacent fresh
case. -/

/-- An edge with the given id exists. -/
@[reducible] def edgeIdPresent (σ : EngineState) (eid : Str) : Prop :=
  ∃ e ∈ σ.store.edges, e.id = eid

/-- An entity row with the given id and `entityType` exists. -/
@[reducible] def entityTypePresent (σ : EngineState) (i : Str) (ty : Option Str) : Prop :=
  ∃ e ∈ σ.store.entities, e.id = i ∧ e.entityType = ty

/-- The `touched ∪ discovered` id set `completeTrajectory` computes for a
trajectory. -/
def allIdsOfTrajectory (σ : EngineState) (trajectoryId : Str) : List Str :=
  firstDedup (touchedIdsOf (trajectoryEventsOf σ trajectoryId)
    ++ discoveredIdsOf (trajectoryEventsOf σ trajectoryId))

theorem upsertOutcomeEdge_present_self (σ : EngineState) (sid oid : Str) (ts : Nat) :
    edgeIdPresent (upsertOutcomeEdge σ sid oid ts) (sid ++ ':' :: oid) := by
  simp only [upsertOutcomeEdge, edgeIdPresent]
  cases hf : σ.store.edges.find? (fun e => decide (e.id = sid ++ ':' :: oid)) with
  | some ex =>
    have hid : ex.id = sid ++ ':' :: oid := by
      have h2 := List.find?_some hf
      simpa using h2
    refine ⟨_, List.mem_map_of_mem _ (List.mem_of_find?_eq_some hf), ?_⟩
    simp [hid]
  | none =>
    exact ⟨_, List.mem_append_right _ (List.mem_singleton.mpr rfl), rfl⟩

theorem upsertOutcomeEdge_present_mono {σ : EngineState} {eid : Str} (sid oid : Str)
    (ts : Nat) (h : edgeIdPresent σ eid) :
    edgeIdPresent (upsertOutcomeEdge σ sid oid ts) eid := by
  obtain ⟨e, hmem, hid⟩ := h
  simp only [upsertOutcomeEdge, edgeIdPresent]
  cases hf : σ.store.edges.find? (fun x => decide (x.id = sid ++ ':' :: oid)) with
  | some ex =>
    refine ⟨_, List.mem_map_of_mem _ hmem, ?_⟩
    split <;> exact hid
  | none =>
    exact ⟨e, List.mem_append_left _ hmem, hid⟩

theorem outcomesFold_present_mono {σ : EngineState} {eid : Str} (ts : Nat) (sid : Str)
    (l : List Entity) (h : edgeIdPresent σ eid) :
    edgeIdPresent (l.foldl (outcomesFold ts sid) σ) eid := by
  induction l generalizing σ with
  | nil => exact h
  | cons a t ih => exact ih (upsertOutcomeEdge_present_mono sid a.id ts h)

theorem outcomesFold_present_self (ts : Nat) (sid : Str) :
    ∀ (l : List Entity) (σ : EngineState) (o : Entity), o ∈ l →
      edgeIdPresent (l.foldl (outcomesFold ts sid) σ) (sid ++ ':' :: o.id) := by
  intro l
  induction l with
  | nil => intro σ o ho; cases ho
  | cons a t ih =>
    intro σ o ho
    rcases List.mem_cons.mp ho with rfl | ho
    · exact outcomesFold_present_mono ts sid t (upsertOutcomeEdge_present_self σ sid o.id ts)
    · exact ih _ o ho

theorem strategiesFold_present_mono {σ : EngineState} {eid : Str} (ts : Nat)
    (outcomes : List Entity) (l : List Entity) (h : edgeIdPresent σ eid) :
    edgeIdPresent (l.foldl (strategiesFold ts outcomes) σ) eid := by
  induction l generalizing σ with
  | nil => exact h
  | cons a t ih => exact ih (outcomesFold_present_mono ts a.id outcomes h)

theorem strategiesFold_present_self (ts : Nat) (lo : List Entity) :
    ∀ (ls : List Entity) (σ : EngineState) (s o : Entity), s ∈ ls → o ∈ lo →
      edgeIdPresent (ls.foldl (strategiesFold ts lo) σ) (s.id ++ ':' :: o.id) := by
  intro ls
  induction ls with
  | nil => intro σ s o hs ho; cases hs
  | cons a t ih =>
    intro σ s o hs ho
    rcases List.mem_cons.mp hs with rfl | hs
    · exact strategiesFold_present_mono ts lo t
        (outcomesFold_present_self ts s.id lo σ o ho)
    · exact ih _ s o hs ho

theorem isEmpty_false_of_mem {α : Type} {a : α} {l : List α} (h : a ∈ l) :
    l.isEmpty = false := by
  cases l with
  | nil => cases h
  | cons x t => rfl

theorem trackOutcomes_present {σ : EngineState} {sid oid : Str} {entityIds : List Str}
    (ts : Nat) (hS : entityTypePresent σ sid (some "strategy".data))
    (hO : entityTypePresent σ oid (some "outcome".data))
    (hSin : sid ∈ entityIds) (hOin : oid ∈ entityIds) :
    edgeIdPresent (trackOutcomes σ entityIds ts) (sid ++ ':' :: oid) := by
  obtain ⟨eS, hSmem, hSid, hSty⟩ := hS
  obtain ⟨eO, hOmem, hOid, hOty⟩ := hO
  have hSfilter : eS ∈ (σ.store.entities.filter (fun e => decide (e.id ∈ entityIds))).filter
      (fun e => decide (e.entityType = some "strategy".data)) :=
    List.mem_filter.mpr
      ⟨List.mem_filter.mpr ⟨hSmem, decide_eq_true (hSid ▸ hSin)⟩, decide_eq_true hSty⟩
  have hOfilter : eO ∈ (σ.store.entities.filter (fun e => decide (e.id ∈ entityIds))).filter
      (fun e => decide (e.entityType = some "outcome".data)) :=
    List.mem_filter.mpr
      ⟨List.mem_filter.mpr ⟨hOmem, decide_eq_true (hOid ▸ hOin)⟩, decide_eq_true hOty⟩
  simp only [trackOutcomes, isEmpty_false_of_mem hSin, isEmpty_false_of_mem hSfilter,
    isEmpty_false_of_mem hOfilter, Bool.false_eq_true, if_false, Bool.or_self]
  have := strategiesFold_present_self ts
    ((σ.store.entities.filter (fun e => decide (e.id ∈ entityIds))).filter
      (fun e => decide (e.entityType = some "outcome".data)))
    ((σ.store.entities.filter (fun e => decide (e.id ∈ entityIds))).filter
      (fun e => decide (e.entityType = some "strategy".data)))
    σ eS eO hSfilter hOfilter
  rw [hSid, hOid] at this
  exact this

theorem upsertCooccurrence_entities (σ : EngineState) (a b : Str) (ts : Nat) :
    (upsertCooccurrence σ a b ts).store.entities = σ.store.entities := by
  simp only [upsertCooccurrence]
  split
  · rfl
  · split <;> rfl

theorem updateCooccurrences_entities (σ : EngineState) (ids : List Str) (ts : Nat) :
    (updateCooccurrences σ ids ts).store.entities = σ.store.entities := by
  simp only [updateCooccurrences]
  split
  · rfl
  · generalize allPairs ids = l
    induction l generalizing σ with
    | nil => rfl
    | cons p t ih => rw [List.foldl_cons, ih, coocFold, upsertCooccurrence_entities]

theorem strengthenOneEdge_entities (σ : EngineState) (a b : Str) (ts : Nat) :
    (strengthenOneEdge σ a b ts).2.store.entities = σ.store.entities := by
  simp only [strengthenOneEdge]
  split
  · rfl
  · split <;> rfl

theorem strengthenFold_entities (ts : Nat) (acc : List EdgeInfo × EngineState)
    (p : Str × Str) :
    ((strengthenFold ts acc p).2).store.entities = acc.2.store.entities := by
  simp only [strengthenFold]
  exact strengthenOneEdge_entities _ _ _ _

theorem strengthenEdges_entities (σ : EngineState) (ids : List Str) (ts : Nat) :
    (strengthenEdges σ ids ts).2.store.entities = σ.store.entities := by
  simp only [strengthenEdges]
  split
  · rfl
  · have aux : ∀ (l : List (Str × Str)) (acc : List EdgeInfo × EngineState),
        ((l.foldl (strengthenFold ts) acc).2).store.entities = acc.2.store.entities := by
      intro l
      induction l with
      | nil => intro acc; rfl
      | cons p t ih => intro acc; rw [List.foldl_cons, ih, strengthenFold_entities]
    exact aux _ _

theorem bumpEntityCounts_typePresent {σ : EngineState} {i : Str} {ty : Option Str}
    (ids : List Str) (h : entityTypePresent σ i ty) :
    entityTypePresent (bumpEntityCounts σ ids) i ty := by
  obtain ⟨e, hmem, hid, hty⟩ := h
  subst hid
  subst hty
  simp only [bumpEntityCounts, entityTypePresent]
  split
  · exact ⟨e, hmem, rfl, rfl⟩
  · refine ⟨_, List.mem_map_of_mem _ hmem, ?_⟩
    split <;> exact ⟨rfl, rfl⟩

/-- C5 counterexample scenario: fresh store, one trajectory touching the
strategy `S` and the outcome `O` consecutively. -/
def c5AdjStart : Str × EngineState :=
  startTrajectory ({} : EngineState) "acct".data "m".data none 0

def c5AdjS : Str × EngineState :=
  findOrCreateEntity c5AdjStart.2 "acct".data c5AdjStart.1 "S".data
    (some "strategy".data) none 1

def c5AdjS2 : EngineState :=
  (logEvent c5AdjS.2 c5AdjStart.1 "touch".data (some c5AdjS.1) none 1).2

def c5AdjO : Str × EngineState :=
  findOrCreateEntity c5AdjS2 "acct".data c5AdjStart.1 "O".data
    (some "outcome".data) none 2

def c5AdjO2 : EngineState :=
  (logEvent c5AdjO.2 c5AdjStart.1 "touch".data (some c5AdjO.1) none 2).2

def c5AdjFinal : EngineState :=
  (completeTrajectory c5AdjO2 c5AdjStart.1 "acct".data none 3).2

/-- **C5 counterexample.** On a fresh store with one completed trajectory
whose touch sequence is exactly `strategy S, outcome O` (adjacent), the edge
keyed `S:O` has `relationshipType = null` (not `"leads_to"`) and weight `2`
(not `1`): `strengthenEdges` created it first and `trackOutcomes` only
incremented it. -/
theorem trackOutcomes_adjacent_counterexample :
    (c5AdjFinal.store.edges.map (fun e =>
      (e.id, e.relationshipType, e.weight)))
      = [(c5AdjS.1 ++ ':' :: c5AdjO.1, none, 2)]
    ∧ (touchedIdsOf (trajectoryEventsOf c5AdjO2 c5AdjStart.1)) = [c5AdjS.1, c5AdjO.1] := by
  decide

/-- C5 non-adjacent scenario: `S`, then an unrelated topic `X`, then `O`. -/
def c5Sep1 : Str × EngineState :=
  startTrajectory ({} : EngineState) "acct".data "m".data none 0

def c5Sep2 : Str × EngineState :=
  findOrCreateEntity c5Sep1.2 "acct".data c5Sep1.1 "S".data (some "strategy".data) none 1

def c5Sep3 : EngineState :=
  (logEvent c5Sep2.2 c5Sep1.1 "touch".data (some c5Sep2.1) none 1).2

def c5Sep4 : Str × EngineState :=
  findOrCreateEntity c5Sep3 "acct".data c5Sep1.1 "X".data (some "topic".data) none 2

def c5Sep5 : EngineState :=
  (logEvent c5Sep4.2 c5Sep1.1 "touch".data (some c5Sep4.1) none 2).2

def c5Sep6 : Str × EngineState :=
  findOrCreateEntity c5Sep5 "acct".data c5Sep1.1 "O".data (some "outcome".data) none 3

def c5Sep7 : EngineState :=
  (logEvent c5Sep6.2 c5Sep1.1 "touch".data (some c5Sep6.1) none 3).2

def c5SepFinal : EngineState :=
  (completeTrajectory c5Sep7 c5Sep1.1 "acct".data none 4).2

/-- **C5** (corrected). (a) Universally: whenever a completed trajectory's
touched-or-discovered set contains a strategy entity `S` and an outcome
entity `O`, the result store has an edge keyed `S.id:O.id`. (b) On a fresh
store where `S` and `O` were *not* adjacent in the touch sequence, that edge
carries `relationshipType = "leads_to"` and weight 1; adjacency instead
produces the `null`/weight-2 edge of the counterexample. -/
theorem trackOutcomes_leads_to_edge :
    (∀ (σ : EngineState) (trajectoryId nearAccountId : Str) (summary? : Option Str)
      (now : Nat) (sid oid : Str),
      entityTypePresent σ sid (some "strategy".data) →
      entityTypePresent σ oid (some "outcome".data) →
      sid ∈ allIdsOfTrajectory σ trajectoryId →
      oid ∈ allIdsOfTrajectory σ trajectoryId →
      edgeIdPresent (completeTrajectory σ trajectoryId nearAccountId summary? now).2
        (sid ++ ':' :: oid))
    ∧ (c5SepFinal.store.edges.filter (fun e =>
        decide (e.id = c5Sep2.1 ++ ':' :: c5Sep6.1))).map (fun e =>
          (e.relationshipType, e.weight)) = [(some "leads_to".data, 1)]
    ∧ touchedIdsOf (trajectoryEventsOf c5Sep7 c5Sep1.1) = [c5Sep2.1, c5Sep4.1, c5Sep6.1] := by
  refine ⟨?_, by decide, by decide⟩
  intro σ trajectoryId nearAccountId summary? now sid oid hS hO hSin hOin
  show edgeIdPresent
    (trackOutcomes
      (strengthenEdges
        (updateCooccurrences
          (bumpContributionCounts
            (bumpEntityCounts (markComplete σ trajectoryId summary? now)
              (allIdsOfTrajectory σ trajectoryId))
            (allIdsOfTrajectory σ trajectoryId) nearAccountId)
          (allIdsOfTrajectory σ trajectoryId) now)
        (touchedIdsOf (trajectoryEventsOf σ trajectoryId)) now).2
      (allIdsOfTrajectory σ trajectoryId) now)
    (sid ++ ':' :: oid)
  apply trackOutcomes_present now _ _ hSin hOin
  · rw [entityTypePresent, strengthenEdges_entities, updateCooccurrences_entities]
    exact bumpEntityCounts_typePresent _ hS
  · rw [entityTypePresent, strengthenEdges_entities, updateCooccurrences_entities]
    exact bumpEntityCounts_typePresent _ hO

/-- **C5 witness**: the universal part of `trackOutcomes_leads_to_edge`
applied to the concrete non-adjacent scenario. -/
theorem trackOutcomes_leads_to_edge_witness :
    edgeIdPresent (completeTrajectory c5Sep7 c5Sep1.1 "acct".data none 4).2
      (c5Sep2.1 ++ ':' :: c5Sep6.1) :=
  trackOutcomes_leads_to_edge.1 c5Sep7 c5Sep1.1 "acct".data none 4 c5Sep2.1 c5Sep6.1
    (by decide) (by decide) (by decide) (by decide)

/-! ## Claim C7 — per-trajectory sequence numbering -/

/-- The sequence numbers of a trajectory's events, in insertion order. -/
def eventsSeqOf (σ : EngineState) (t : Str) : List Nat :=
  (σ.store.events.filter (fun e => decide (e.trajectoryId = t))).map
    (fun e => e.sequenceNum)

/-- The in-memory counter `logEvent` would use next (`get ?? 0`). -/
def counterOf (σ : EngineState) (t : Str) : Nat :=
  (lookupCounter σ.sequenceCounters t).getD 0

/-- One `logEvent` call, as data. -/
structure LogOp where
  trajectoryId : Str
  evType : Str
  entityId : Option Str
  data? : Option Str
  now : Nat
deriving Repr, DecidableEq

/-- A trajectory driven only by `logEvent` calls. -/
def applyLogOps (σ : EngineState) (ops : List LogOp) : EngineState :=
  ops.foldl
    (fun σ op => (logEvent σ op.trajectoryId op.evType op.entityId op.data? op.now).2) σ

theorem lookup_setCounter_self (l : List (Str × Nat)) (k : Str) (v : Nat) :
    lookupCounter (setCounter l k v) k = some v := by
  induction l with
  | nil => simp [setCounter, lookupCounter]
  | cons p t ih =>
    by_cases hp : p.1 = k
    · simp [setCounter, lookupCounter, hp]
    · simp [setCounter, lookupCounter, hp, ih]

theorem lookup_setCounter_ne (l : List (Str × Nat)) {k k2 : Str} (v : Nat)
    (h : k2 ≠ k) : lookupCounter (setCounter l k v) k2 = lookupCounter l k2 := by
  have hne : ¬ k = k2 := fun hk => h hk.symm
  induction l with
  | nil => simp [setCounter, lookupCounter, hne]
  | cons p t ih =>
    by_cases hp : p.1 = k
    · simp [setCounter, lookupCounter, hp, hne,
        show ¬ p.1 = k2 from fun h2 => hne (hp ▸ h2)]
    · by_cases hp2 : p.1 = k2 <;> simp [setCounter, lookupCounter, hp, hp2, ih, h]

theorem counterOf_logEvent_self (σ : EngineState) (t ty : Str) (eid : Option Str)
    (d : Option Str) (n : Nat) :
    counterOf (logEvent σ t ty eid d n).2 t = counterOf σ t + 1 := by
  simp only [logEvent, counterOf, genId]
  split <;> simp [lookup_setCounter_self]

theorem counterOf_logEvent_ne (σ : EngineState) {t t2 : Str} (ty : Str)
    (eid : Option Str) (d : Option Str) (n : Nat) (h : t2 ≠ t) :
    counterOf (logEvent σ t ty eid d n).2 t2 = counterOf σ t2 := by
  simp only [logEvent, counterOf, genId]
  split <;> simp [lookup_setCounter_ne _ _ h]

theorem eventsSeqOf_logEvent_self (σ : EngineState) (t ty : Str) (eid : Option Str)
    (d : Option Str) (n : Nat) :
    eventsSeqOf (logEvent σ t ty eid d n).2 t = eventsSeqOf σ t ++ [counterOf σ t] := by
  simp only [logEvent, eventsSeqOf, counterOf, genId]
  split <;> simp [List.filter_append]

theorem eventsSeqOf_logEvent_ne (σ : EngineState) {t t2 : Str} (ty : Str)
    (eid : Option Str) (d : Option Str) (n : Nat) (h : t2 ≠ t) :
    eventsSeqOf (logEvent σ t ty eid d n).2 t2 = eventsSeqOf σ t2 := by
  simp only [logEvent, eventsSeqOf, genId]
  split <;> simp [List.filter_append, Ne.symm h]

theorem applyLogOps_invariant (t : Str) :
    ∀ (ops : List LogOp) (σ : EngineState),
      eventsSeqOf σ t = List.range (counterOf σ t) →
      eventsSeqOf (applyLogOps σ ops) t
          = List.range (counterOf σ t + ops.countP (fun op => decide (op.trajectoryId = t)))
        ∧ counterOf (applyLogOps σ ops) t
          = counterOf σ t + ops.countP (fun op => decide (op.trajectoryId = t)) := by
  intro ops
  induction ops with
  | nil => intro σ h; simpa [applyLogOps] using h
  | cons op rest ih =>
    intro σ h
    have step : applyLogOps σ (op :: rest)
        = applyLogOps (logEvent σ op.trajectoryId op.evType op.entityId op.data? op.now).2
            rest := rfl
    by_cases hop : op.trajectoryId = t
    · have hcount : counterOf (logEvent σ op.trajectoryId op.evType op.entityId op.data?
          op.now).2 t = counterOf σ t + 1 := by
        rw [hop]; exact counterOf_logEvent_self σ t _ _ _ _
      have hseq : eventsSeqOf (logEvent σ op.trajectoryId op.evType op.entityId op.data?
          op.now).2 t = List.range (counterOf σ t + 1) := by
        rw [hop, eventsSeqOf_logEvent_self, h, ← List.range_succ]
      have hrec := ih _ (by rw [hseq, hcount])
      have hc : (op :: rest).countP (fun op => decide (op.trajectoryId = t))
          = rest.countP (fun op => decide (op.trajectoryId = t)) + 1 := by
        simp [List.countP_cons, hop]
      rw [step, hc]
      refine ⟨?_, ?_⟩
      · rw [hrec.1, hcount]
        congr 1
        omega
      · rw [hrec.2, hcount]
        omega
    · have hcount : counterOf (logEvent σ op.trajectoryId op.evType op.entityId op.data?
          op.now).2 t = counterOf σ t :=
        counterOf_logEvent_ne σ _ _ _ _ (Ne.symm hop)
      have hseq : eventsSeqOf (logEvent σ op.trajectoryId op.evType op.entityId op.data?
          op.now).2 t = eventsSeqOf σ t :=
        eventsSeqOf_logEvent_ne σ _ _ _ _ (Ne.symm hop)
      have hrec := ih _ (by rw [hseq, hcount, h])
      have hc : (op :: rest).countP (fun op => decide (op.trajectoryId = t))
          = rest.countP (fun op => decide (op.trajectoryId = t)) := by
        simp [List.countP_cons, hop]
      rw [step, hc]
      exact ⟨by rw [hrec.1, hcount], by rw [hrec.2, hcount]⟩

/-- **C7** (confirmed). (a) `startTrajectory` for a fresh trajectory id leaves
no events and counter 0 for it. (b) For any state whose events for `t` are
numbered `0 … counter-1` in insertion order, any further run of `logEvent`
calls keeps them exactly `{0, 1, …, n-1}` in insertion order, where `n`
grows by one per `logEvent` addressed to `t`. Together: a trajectory created
by `startTrajectory` and driven only by `logEvent` calls has event sequence
numbers exactly `List.range n` in insertion order. -/
theorem sequence_numbers_exact :
    (∀ (σ : EngineState) (acct inp : Str) (conv : Option Str) (now : Nat),
      (∀ e ∈ σ.store.events,
        e.trajectoryId ≠ (startTrajectory σ acct inp conv now).1) →
      eventsSeqOf (startTrajectory σ acct inp conv now).2
          (startTrajectory σ acct inp conv now).1
        = List.range (counterOf (startTrajectory σ acct inp conv now).2
            (startTrajectory σ acct inp conv now).1)
      ∧ counterOf (startTrajectory σ acct inp conv now).2
          (startTrajectory σ acct inp conv now).1 = 0)
    ∧ (∀ (t : Str) (ops : List LogOp) (σ : EngineState),
        eventsSeqOf σ t = List.range (counterOf σ t) →
        eventsSeqOf (applyLogOps σ ops) t
          = List.range (counterOf σ t + ops.countP (fun op => decide (op.trajectoryId = t)))) := by
  constructor
  · intro σ acct inp conv now hfresh
    have hcounter : counterOf (startTrajectory σ acct inp conv now).2
        (startTrajectory σ acct inp conv now).1 = 0 := by
      simp [startTrajectory, counterOf, genId, lookup_setCounter_self]
    refine ⟨?_, hcounter⟩
    rw [hcounter]
    simp only [startTrajectory, eventsSeqOf, genId, List.range_zero]
    rw [List.filter_eq_nil_iff.mpr]
    · rfl
    · intro e he
      simpa using hfresh e he
  · intro t ops σ h
    exact (applyLogOps_invariant t ops σ h).1

/-- **C7 witness**: three `logEvent` calls (two on the started trajectory,
one on an unrelated id) starting from a fresh engine: the started trajectory's
events carry sequence numbers `[0, 1]`. -/
theorem sequence_numbers_exact_witness :
    (∀ e ∈ ({} : EngineState).store.events,
      e.trajectoryId ≠ (startTrajectory {} "a".data "m".data none 0).1)
    ∧ eventsSeqOf (startTrajectory ({} : EngineState) "a".data "m".data none 0).2
        (startTrajectory ({} : EngineState) "a".data "m".data none 0).1 = List.range 0
    ∧ eventsSeqOf
        (applyLogOps (startTrajectory ({} : EngineState) "a".data "m".data none 0).2
          [{ trajectoryId := "id0".data, evType := "touch".data, entityId := none,
             data? := none, now := 1 },
           { trajectoryId := "zz".data, evType := "touch".data, entityId := none,
             data? := none, now := 2 },
           { trajectoryId := "id0".data, evType := "reason".data, entityId := none,
             data? := none, now := 3 }]) "id0".data = List.range 2 := by
  have hfresh : ∀ e ∈ ({} : EngineState).store.events,
      e.trajectoryId ≠ (startTrajectory {} "a".data "m".data none 0).1 := by
    intro e he
    cases he
  have h1 := (sequence_numbers_exact.1 ({} : EngineState) "a".data "m".data none 0 hfresh)
  refine ⟨hfresh, by rw [h1.1, h1.2], ?_⟩
  have h2 := sequence_numbers_exact.2 "id0".data
    [{ trajectoryId := "id0".data, evType := "touch".data, entityId := none,
       data? := none, now := 1 },
     { trajectoryId := "zz".data, evType := "touch".data, entityId := none,
       data? := none, now := 2 },
     { trajectoryId := "id0".data, evType := "reason".data, entityId := none,
       data? := none, now := 3 }]
    (startTrajectory ({} : EngineState) "a".data "m".data none 0).2
    (by decide)
  rw [h2]
  norm_num
  decide

/-! ## Claim C6 — outcome probability normalisation and ordering -/

theorem sum_map_div {α : Type} (l : List α) (f : α → ℚ) (t : ℚ) :
    (l.map (fun x => f x / t)).sum = (l.map f).sum / t := by
  induction l with
  | nil => simp
  | cons a r ih => simp [ih, add_div]

theorem cast_sum_totalWeight (l : List MergedOutcome) :
    (l.map (fun o => (o.totalWeight : ℚ))).sum = (((l.map (fun o => o.totalWeight)).sum : Nat) : ℚ) := by
  induction l with
  | nil => simp
  | cons a r ih => simp [ih]

/-- The four distribution facts, for an arbitrary merged list. -/
theorem buildProjections_props (merged : List MergedOutcome) :
    (∀ p ∈ sortDescBy (fun p => p.probability)
        (merged.map (buildProjection ((merged.map (fun o => o.totalWeight)).sum))),
      p.probability =
        if 0 < (merged.map (fun o => o.totalWeight)).sum then
          (p.evidence.edgeWeight : ℚ) / (((merged.map (fun o => o.totalWeight)).sum : Nat) : ℚ)
        else 0)
    ∧ (0 < (merged.map (fun o => o.totalWeight)).sum →
        ((sortDescBy (fun p => p.probability)
          (merged.map (buildProjection ((merged.map (fun o => o.totalWeight)).sum)))).map
            (fun p => p.probability)).sum = 1)
    ∧ ((merged.map (fun o => o.totalWeight)).sum = 0 →
        ∀ p ∈ sortDescBy (fun p => p.probability)
          (merged.map (buildProjection ((merged.map (fun o => o.totalWeight)).sum))),
          p.probability = 0)
    ∧ (sortDescBy (fun p => p.probability)
        (merged.map (buildProjection ((merged.map (fun o => o.totalWeight)).sum)))).Pairwise
        (fun a b => b.probability ≤ a.probability) := by
  set TW := (merged.map (fun o => o.totalWeight)).sum with hTW
  have hperm : List.Perm
      (sortDescBy (fun p => p.probability) (merged.map (buildProjection TW)))
      (merged.map (buildProjection TW)) := sortDescBy_perm _ _
  refine ⟨?_, ?_, ?_, sortDescBy_sorted _ _⟩
  · intro p hp
    obtain ⟨o, ho, rfl⟩ := List.mem_map.mp (hperm.mem_iff.mp hp)
    rfl
  · intro hpos
    rw [List.Perm.sum_eq (hperm.map (fun p => p.probability)), List.map_map]
    have hmap : (merged.map ((fun p => p.probability) ∘ buildProjection TW))
        = merged.map (fun o => (o.totalWeight : ℚ) / (TW : ℚ)) := by
      apply List.map_congr_left
      intro o _
      simp only [Function.comp, buildProjection, if_pos hpos]
    rw [hmap, sum_map_div, cast_sum_totalWeight, ← hTW]
    exact div_self (by exact_mod_cast Nat.pos_iff_ne_zero.mp hpos)
  · intro hzero p hp
    obtain ⟨o, ho, rfl⟩ := List.mem_map.mp (hperm.mem_iff.mp hp)
    simp [buildProjection, hzero]

/-- `simulate`'s outcome list is either empty or a projection over the
resolved ids. -/
theorem simulate_outcomes_cases (st : Store) (inputs : List EntityInput) :
    (simulate st inputs).outcomes = []
    ∨ (simulate st inputs).outcomes
        = projectOutcomesFromEdges st
            ((resolveEntities st inputs).1.map (fun e => e.id)) := by
  rcases hre : resolveEntities st inputs with ⟨resolved, unresolved⟩
  by_cases hempty : resolved.isEmpty
  · left
    simp [simulate, hre, hempty, emptyResult]
  · right
    simp [simulate, hre, hempty]

/-- The distribution facts, at the `projectOutcomesFromEdges` level. -/
theorem projectOutcomes_props (st : Store) (ids : List Str) :
    (∀ p ∈ projectOutcomesFromEdges st ids,
      p.probability =
        if 0 < ((projectOutcomesFromEdges st ids).map (fun p => p.evidence.edgeWeight)).sum
        then (p.evidence.edgeWeight : ℚ)
          / ((((projectOutcomesFromEdges st ids).map (fun p => p.evidence.edgeWeight)).sum : Nat) : ℚ)
        else 0)
    ∧ (0 < ((projectOutcomesFromEdges st ids).map (fun p => p.evidence.edgeWeight)).sum →
        ((projectOutcomesFromEdges st ids).map (fun p => p.probability)).sum = 1)
    ∧ (((projectOutcomesFromEdges st ids).map (fun p => p.evidence.edgeWeight)).sum = 0 →
        ∀ p ∈ projectOutcomesFromEdges st ids, p.probability = 0)
    ∧ (projectOutcomesFromEdges st ids).Pairwise
        (fun a b => b.probability ≤ a.probability) := by
  simp only [projectOutcomesFromEdges]
  split
  · simp
  · generalize ((sortDescBy (fun r => r.1.weight)
        ((st.edges.filter (fun ed => decide (ed.sourceEntityId ∈ ids))).filterMap
          (joinTarget st))
      ++ (st.edges.filter (fun ed => decide (ed.targetEntityId ∈ ids))).filterMap
          (joinSource st)).foldl mergeStep []) = merged
    have hperm : List.Perm
        (sortDescBy (fun p => p.probability)
          (merged.map (buildProjection ((merged.map (fun o => o.totalWeight)).sum))))
        (merged.map (buildProjection ((merged.map (fun o => o.totalWeight)).sum))) :=
      sortDescBy_perm _ _
    have hW : ((sortDescBy (fun p => p.probability)
          (merged.map (buildProjection ((merged.map (fun o => o.totalWeight)).sum)))).map
            (fun p => p.evidence.edgeWeight)).sum
        = (merged.map (fun o => o.totalWeight)).sum := by
      rw [List.Perm.sum_eq (hperm.map (fun p => p.evidence.edgeWeight)), List.map_map]
      rfl
    rw [hW]
    exact buildProjections_props merged

/-- **C6** (confirmed). For every `simulate` call with a non-empty outcome
projection: each probability equals the outcome's merged edge weight divided
by the total merged weight, so they sum to `1` when the total weight is
positive; when the total weight is `0` every probability is `0`; and the list
is sorted in descending probability order. -/
theorem simulate_probabilities_normalised (st : Store) (inputs : List EntityInput)
    (hne : (simulate st inputs).outcomes ≠ []) :
    (∀ p ∈ (simulate st inputs).outcomes,
      p.probability =
        if 0 < (((simulate st inputs).outcomes).map (fun p => p.evidence.edgeWeight)).sum
        then (p.evidence.edgeWeight : ℚ)
          / (((((simulate st inputs).outcomes).map (fun p => p.evidence.edgeWeight)).sum : Nat) : ℚ)
        else 0)
    ∧ (0 < (((simulate st inputs).outcomes).map (fun p => p.evidence.edgeWeight)).sum →
        (((simulate st inputs).outcomes).map (fun p => p.probability)).sum = 1)
    ∧ ((((simulate st inputs).outcomes).map (fun p => p.evidence.edgeWeight)).sum = 0 →
        ∀ p ∈ (simulate st inputs).outcomes, p.probability = 0)
    ∧ ((simulate st inputs).outcomes).Pairwise
        (fun a b => b.probability ≤ a.probability) := by
  rcases simulate_outcomes_cases st inputs with hcase | hcase
  · exact absurd hcase hne
  · rw [hcase]
    exact projectOutcomes_props st _

/-- C6 witness store: strategy `s1` with a single outcome edge of weight 3
(one merged outcome, so no probability comparison is needed to evaluate the
list's shape). -/
def c6Store : Store :=
  { entities :=
      [{ id := "s1".data, name := "S".data, normalizedName := "s".data,
         entityType := some "strategy".data, description := none, touchCount := 5,
         trajectoryCount := 2, contributorCount := 1, firstSeen := 0, lastSeen := 0 },
       { id := "o1".data, name := "Mastery".data, normalizedName := "mastery".data,
         entityType := some "outcome".data, description := none, touchCount := 3,
         trajectoryCount := 2, contributorCount := 1, firstSeen := 0, lastSeen := 0 }],
    edges :=
      [{ id := "s1:o1".data, sourceEntityId := "s1".data, targetEntityId := "o1".data,
         relationshipType := some "leads_to".data, weight := 3, trajectoryCount := 3,
         contributorCount := 1, positiveOutcomes := 0, negativeOutcomes := 0,
         mixedOutcomes := 0, firstSeen := 0, lastSeen := 0 }] }

/-- **C6 witness**: on `c6Store` the outcome projection is non-empty with
total merged weight 3, and the theorem yields the probability sum `1`. -/
theorem simulate_probabilities_normalised_witness :
    (simulate c6Store [{ name := "s".data, type := none }]).outcomes ≠ []
    ∧ ((simulate c6Store [{ name := "s".data, type := none }]).outcomes.map
        (fun p => p.evidence.edgeWeight)) = [3]
    ∧ ((simulate c6Store [{ name := "s".data, type := none }]).outcomes.map
        (fun p => p.probability)).sum = 1 := by
  refine ⟨by decide, by decide, ?_⟩
  exact (simulate_probabilities_normalised c6Store [{ name := "s".data, type := none }]
    (by decide)).2.1 (by decide)

/-! ## Claim C8 — counterfactual swap and the low-evidence override -/

/-- C8 store: only `A` and `B` exist, with no edges at all, so both
simulations see fewer than 5 observations. -/
def c8Store : Store :=
  { entities :=
      [{ id := "ea".data, name := "A".data, normalizedName := "a".data,
         entityType := none, description := none, touchCount := 1,
         trajectoryCount := 1, contributorCount := 1, firstSeen := 0, lastSeen := 0 },
       { id := "eb".data, name := "B".data, normalizedName := "b".data,
         entityType := none, description := none, touchCount := 1,
         trajectoryCount := 1, contributorCount := 1, firstSeen := 0, lastSeen := 0 }] }

/-- **C8** (confirmed). The counterfactual input swap replaces every base
element matching `from` by `to` (so for `base = [A]`, `A → B` the alternative
is `[B]`, whose resolved entities are `B` and not `A`); when nothing matched
it removes the elements named like `from` and appends `to`; and whenever the
minimum `totalObservations` of the two simulations is below 5,
`compareOutcomes` returns `netEffect = "uncertain"` regardless of the deltas. -/
theorem counterfactual_swap_uncertain :
    (computeAlternativeInputs [{ name := "A".data, type := none }]
        { name := "A".data, type := none } { name := "B".data, type := none }
      = [{ name := "B".data, type := none }])
    ∧ (computeAlternativeInputs [{ name := "A".data, type := none }]
        { name := "a".data, type := some "x".data } { name := "B".data, type := none }
      = [{ name := "B".data, type := none }])
    ∧ ((simulate c8Store
        (computeAlternativeInputs [{ name := "A".data, type := none }]
          { name := "A".data, type := none } { name := "B".data, type := none })).resolved.map
        (fun r => r.name) = ["B".data])
    ∧ (∀ (original alternative : SimulationResult),
        min original.evidence.totalObservations alternative.evidence.totalObservations < 5 →
        (compareOutcomes original alternative).netEffect = "uncertain".data) := by
  refine ⟨by decide, by decide, by decide, ?_⟩
  intro original alternative h
  simp only [compareOutcomes]
  rw [if_pos h]

/-- **C8 witness**: the uncertainty override applied to two concrete
simulation results with 0 observations each. -/
theorem counterfactual_swap_uncertain_witness :
    min (emptyResult []).evidence.totalObservations
        (emptyResult ["x".data]).evidence.totalObservations < 5
    ∧ (compareOutcomes (emptyResult []) (emptyResult ["x".data])).netEffect
        = "uncertain".data :=
  ⟨by decide,
   counterfactual_swap_uncertain.2.2.2 (emptyResult []) (emptyResult ["x".data]) (by decide)⟩

/-! ## Claim C10 — the core never sets outcome valence counters, so the
differentiator filter always drops every candidate -/

/-- Every edge row has `positiveOutcomes = negativeOutcomes = 0` (the state of
any store written exclusively by the core engine). -/
@[reducible] def edgesOutcomeFree (st : Store) : Prop :=
  ∀ e ∈ st.edges, e.positiveOutcomes = 0 ∧ e.negativeOutcomes = 0

theorem joinTarget_fst {st : Store} {ed : Edge} {pr : Edge × Entity}
    (h : joinTarget st ed = some pr) : pr.1 = ed := by
  simp only [joinTarget] at h
  rcases Option.bind_eq_some.mp h with ⟨ent, _, h2⟩
  split at h2
  · cases h2; rfl
  · cases h2

theorem getOutcomeEdges_zero {st : Store} (hz : edgesOutcomeFree st) (i : Str) :
    ∀ r ∈ getOutcomeEdgesForEntity st i, r.positiveCount = 0 ∧ r.negativeCount = 0 := by
  intro r hr
  simp only [getOutcomeEdgesForEntity] at hr
  obtain ⟨pr, hpr, rfl⟩ := List.mem_map.mp hr
  obtain ⟨ed, hed, hjoin⟩ := List.mem_filterMap.mp hpr
  have hed2 : ed ∈ st.edges := (List.mem_filter.mp hed).1
  have h1 : pr.1 = ed := joinTarget_fst hjoin
  have := hz ed hed2
  exact ⟨by rw [h1]; exact this.1, by rw [h1]; exact this.2⟩

theorem computeOutcomeShift_zero {rows : List OutcomeEdgeRow}
    (hz : ∀ r ∈ rows, r.positiveCount = 0 ∧ r.negativeCount = 0) :
    (computeOutcomeShift rows).magnitude = 0 := by
  have hpos : (rows.map (fun e => e.positiveCount)).sum = 0 :=
    List.sum_eq_zero (fun x hx => by
      obtain ⟨r, hr, rfl⟩ := List.mem_map.mp hx
      exact (hz r hr).1)
  have hneg : (rows.map (fun e => e.negativeCount)).sum = 0 :=
    List.sum_eq_zero (fun x hx => by
      obtain ⟨r, hr, rfl⟩ := List.mem_map.mp hx
      exact (hz r hr).2)
  simp only [computeOutcomeShift, hpos, hneg]
  norm_num

theorem differentiatorOf_none {st : Store} (hz : edgesOutcomeFree st)
    (ids : List Str) (r : Cooccurrence × Entity) : differentiatorOf st ids r = none := by
  simp only [differentiatorOf]
  split
  · rfl
  · rw [if_neg]
    rw [computeOutcomeShift_zero (getOutcomeEdges_zero hz r.2.id)]
    norm_num

theorem findDifferentiators_nil {st : Store} (hz : edgesOutcomeFree st)
    (ids : List Str) : findDifferentiatorsFromStructure st ids = [] := by
  simp only [findDifferentiatorsFromStructure]
  rw [List.filterMap_eq_nil_iff.mpr (fun r _ => differentiatorOf_none hz ids r)]
  rfl

theorem upsertCooccurrence_edges (σ : EngineState) (a b : Str) (ts : Nat) :
    (upsertCooccurrence σ a b ts).store.edges = σ.store.edges := by
  simp only [upsertCooccurrence]
  split
  · rfl
  · split <;> rfl

theorem updateCooccurrences_edges (σ : EngineState) (ids : List Str) (ts : Nat) :
    (updateCooccurrences σ ids ts).store.edges = σ.store.edges := by
  simp only [updateCooccurrences]
  split
  · rfl
  · generalize allPairs ids = l
    induction l generalizing σ with
    | nil => rfl
    | cons p t ih => rw [List.foldl_cons, ih, coocFold, upsertCooccurrence_edges]

theorem strengthenOneEdge_outcomeFree {σ : EngineState} (a b : Str) (ts : Nat)
    (h : edgesOutcomeFree σ.store) :
    edgesOutcomeFree (strengthenOneEdge σ a b ts).2.store := by
  simp only [strengthenOneEdge]
  split
  · exact h
  · cases hf : σ.store.edges.find? (fun e => decide (e.id = a ++ ':' :: b)) with
    | some ex =>
      intro e he
      obtain ⟨x, hx, rfl⟩ := List.mem_map.mp he
      have := h x hx
      split <;> simpa using this
    | none =>
      intro e he
      rcases List.mem_append.mp he with hx | hx
      · exact h e hx
      · rcases List.mem_singleton.mp hx with rfl
        exact ⟨rfl, rfl⟩

theorem strengthenFold_outcomeFree (ts : Nat) :
    ∀ (l : List (Str × Str)) (acc : List EdgeInfo × EngineState),
      edgesOutcomeFree acc.2.store →
      edgesOutcomeFree ((l.foldl (strengthenFold ts) acc).2).store := by
  intro l
  induction l with
  | nil => intro acc h; exact h
  | cons p t ih =>
    intro acc h
    exact ih _ (strengthenOneEdge_outcomeFree p.1 p.2 ts h)

theorem strengthenEdges_outcomeFree {σ : EngineState} (ids : List Str) (ts : Nat)
    (h : edgesOutcomeFree σ.store) :
    edgesOutcomeFree (strengthenEdges σ ids ts).2.store := by
  simp only [strengthenEdges]
  split
  · exact h
  · exact strengthenFold_outcomeFree ts _ _ h

theorem upsertOutcomeEdge_outcomeFree {σ : EngineState} (a b : Str) (ts : Nat)
    (h : edgesOutcomeFree σ.store) :
    edgesOutcomeFree (upsertOutcomeEdge σ a b ts).store := by
  simp only [upsertOutcomeEdge]
  cases hf : σ.store.edges.find? (fun e => decide (e.id = a ++ ':' :: b)) with
  | some ex =>
    intro e he
    obtain ⟨x, hx, rfl⟩ := List.mem_map.mp he
    have := h x hx
    split <;> simpa using this
  | none =>
    intro e he
    rcases List.mem_append.mp he with hx | hx
    · exact h e hx
    · rcases List.mem_singleton.mp hx with rfl
      exact ⟨rfl, rfl⟩

theorem outcomesFold_outcomeFree (ts : Nat) (sid : Str) :
    ∀ (l : List Entity) (σ : EngineState), edgesOutcomeFree σ.store →
      edgesOutcomeFree ((l.foldl (outcomesFold ts sid) σ)).store := by
  intro l
  induction l with
  | nil => intro σ h; exact h
  | cons a t ih => intro σ h; exact ih _ (upsertOutcomeEdge_outcomeFree sid a.id ts h)

theorem strategiesFold_outcomeFree (ts : Nat) (lo : List Entity) :
    ∀ (l : List Entity) (σ : EngineState), edgesOutcomeFree σ.store →
      edgesOutcomeFree ((l.foldl (strategiesFold ts lo) σ)).store := by
  intro l
  induction l with
  | nil => intro σ h; exact h
  | cons a t ih => intro σ h; exact ih _ (outcomesFold_outcomeFree ts a.id lo σ h)

theorem trackOutcomes_outcomeFree {σ : EngineState} (ids : List Str) (ts : Nat)
    (h : edgesOutcomeFree σ.store) :
    edgesOutcomeFree (trackOutcomes σ ids ts).store := by
  simp only [trackOutcomes]
  split
  · exact h
  · split
    · exact h
    · exact strategiesFold_outcomeFree ts _ _ _ h

/-- **C10** (confirmed). (a) `completeTrajectory` — the only writer of edge
rows — preserves `positiveOutcomes = negativeOutcomes = 0` on every edge.
(b) On any such store, every differentiator candidate gets the `0.5` baseline
positive rate, hence magnitude `0`, and is dropped by the `> 0.1` filter:
`simulate` returns no differentiators, and `hasPatterns` holds exactly when
the outcome list is non-empty. -/
theorem zero_valence_no_differentiators :
    (∀ (σ : EngineState) (trajectoryId nearAccountId : Str) (summary? : Option Str)
      (now : Nat), edgesOutcomeFree σ.store →
      edgesOutcomeFree (completeTrajectory σ trajectoryId nearAccountId summary? now).2.store)
    ∧ (∀ (st : Store) (inputs : List EntityInput), edgesOutcomeFree st →
        (simulate st inputs).differentiators = []
        ∧ ((simulate st inputs).evidence.hasPatterns = true
            ↔ (simulate st inputs).outcomes ≠ [])) := by
  constructor
  · intro σ trajectoryId nearAccountId summary? now h
    show edgesOutcomeFree
      (trackOutcomes
        (strengthenEdges
          (updateCooccurrences
            (bumpContributionCounts
              (bumpEntityCounts (markComplete σ trajectoryId summary? now)
                (allIdsOfTrajectory σ trajectoryId))
              (allIdsOfTrajectory σ trajectoryId) nearAccountId)
            (allIdsOfTrajectory σ trajectoryId) now)
          (touchedIdsOf (trajectoryEventsOf σ trajectoryId)) now).2
        (allIdsOfTrajectory σ trajectoryId) now).store
    apply trackOutcomes_outcomeFree
    apply strengthenEdges_outcomeFree
    rw [edgesOutcomeFree, updateCooccurrences_edges]
    have hedges : (bumpContributionCounts
        (bumpEntityCounts (markComplete σ trajectoryId summary? now)
          (allIdsOfTrajectory σ trajectoryId))
        (allIdsOfTrajectory σ trajectoryId) nearAccountId).store.edges
        = σ.store.edges := by
      simp only [bumpContributionCounts, markComplete]
      simp only [bumpEntityCounts]
      split <;> rfl
    rw [hedges]
    exact h
  · intro st inputs h
    rcases hre : resolveEntities st inputs with ⟨resolved, unresolved⟩
    by_cases hempty : resolved.isEmpty
    · constructor
      · simp [simulate, hre, hempty, emptyResult]
      · simp [simulate, hre, hempty, emptyResult]
    · have hdiff : (simulate st inputs).differentiators = [] := by
        simp [simulate, hre, hempty, findDifferentiators_nil h]
      refine ⟨hdiff, ?_⟩
      have houts : (simulate st inputs).outcomes
          = projectOutcomesFromEdges st (resolved.map (fun e => e.id)) := by
        simp [simulate, hre, hempty]
      have hpat : (simulate st inputs).evidence.hasPatterns
          = (!(projectOutcomesFromEdges st (resolved.map (fun e => e.id))).isEmpty
            || !(findDifferentiatorsFromStructure st
                  (resolved.map (fun e => e.id))).isEmpty) := by
        simp [simulate, hre, hempty]
      rw [hpat, houts, findDifferentiators_nil h]
      cases hout : (projectOutcomesFromEdges st (resolved.map (fun e => e.id))) with
      | nil => simp
      | cons a t => simp

/-- **C10 witness**: both parts of the theorem applied to concrete inputs —
a fresh engine state for the preservation part, and `c6Store` (whose edge has
zero valence counters) for the simulation part. -/
theorem zero_valence_no_differentiators_witness :
    edgesOutcomeFree ({} : EngineState).store
    ∧ edgesOutcomeFree
        (completeTrajectory ({} : EngineState) "t".data "acct".data none 0).2.store
    ∧ edgesOutcomeFree c6Store
    ∧ (simulate c6Store [{ name := "s".data, type := none }]).differentiators = [] :=
  ⟨by decide,
   (zero_valence_no_differentiators.1 ({} : EngineState) "t".data "acct".data none 0
     (by decide)),
   by decide,
   (zero_valence_no_differentiators.2 c6Store [{ name := "s".data, type := none }]
     (by decide)).1⟩

/-! ## Claim C9 — tag extraction: dedup, untyped default, round-trip

Character-level facts about the ASCII lower-casing, then string-level
normalisation facts, then the two regex scanners. -/

theorem char_ofNat_toNat {n : Nat} (h2 : n ≤ 122) : (Char.ofNat n).toNat = n := by
  have hv : n.isValidChar := Or.inl (by omega)
  simp only [Char.ofNat, hv, dif_pos, Char.ofNatAux, Char.toNat]
  simp [UInt32.toNat]

theorem char_eq_of_toNat {a b : Char} (h : a.toNat = b.toNat) : a = b :=
  Char.eq_of_val_eq (UInt32.ext h)

theorem toLowerChar_toNat_of_upper {c : Char} (h : 65 ≤ c.toNat ∧ c.toNat ≤ 90) :
    (toLowerChar c).toNat = c.toNat + 32 := by
  rw [toLowerChar, if_pos h]
  exact char_ofNat_toNat (by omega)

theorem toLowerChar_of_not_upper {c : Char} (h : ¬(65 ≤ c.toNat ∧ c.toNat ≤ 90)) :
    toLowerChar c = c := by
  rw [toLowerChar, if_neg h]

theorem toLowerChar_idem (c : Char) : toLowerChar (toLowerChar c) = toLowerChar c := by
  by_cases h : 65 ≤ c.toNat ∧ c.toNat ≤ 90
  · have h1 := toLowerChar_toNat_of_upper h
    exact toLowerChar_of_not_upper (by omega)
  · rw [toLowerChar_of_not_upper h, toLowerChar_of_not_upper h]

theorem toLowerChar_ne_of_low {c x : Char} (hx : x.toNat < 97) (h : c ≠ x) :
    toLowerChar c ≠ x := by
  by_cases hu : 65 ≤ c.toNat ∧ c.toNat ≤ 90
  · intro heq
    have h1 := toLowerChar_toNat_of_upper hu
    rw [heq] at h1
    omega
  · rw [toLowerChar_of_not_upper hu]
    exact h

theorem isSpaceChar_eq_false_of_ge {x : Char} (h : 33 ≤ x.toNat) :
    isSpaceChar x = false := by
  apply decide_eq_false
  intro hdis
  rcases hdis with rfl | rfl | rfl | rfl | rfl | rfl <;> revert h <;> decide

theorem isSpaceChar_toLowerChar (c : Char) : isSpaceChar (toLowerChar c) = isSpaceChar c := by
  by_cases hu : 65 ≤ c.toNat ∧ c.toNat ≤ 90
  · have h1 := toLowerChar_toNat_of_upper hu
    have hc : isSpaceChar c = false := @isSpaceChar_eq_false_of_ge c (by omega)
    have hl : isSpaceChar (toLowerChar c) = false :=
      @isSpaceChar_eq_false_of_ge (toLowerChar c) (by omega)
    rw [hc, hl]
  · rw [toLowerChar_of_not_upper hu]

theorem isWordChar_iff {c : Char} : isWordChar c = true ↔
    ((97 ≤ c.toNat ∧ c.toNat ≤ 122) ∨ (65 ≤ c.toNat ∧ c.toNat ≤ 90)
      ∨ (48 ≤ c.toNat ∧ c.toNat ≤ 57) ∨ c.toNat = 95) := by
  rw [isWordChar, decide_eq_true_eq]
  constructor
  · rintro (h | h | h | rfl)
    · exact Or.inl ⟨h.1, h.2⟩
    · exact Or.inr (Or.inl ⟨h.1, h.2⟩)
    · exact Or.inr (Or.inr (Or.inl ⟨h.1, h.2⟩))
    · exact Or.inr (Or.inr (Or.inr (by decide)))
  · rintro (h | h | h | h)
    · exact Or.inl ⟨h.1, h.2⟩
    · exact Or.inr (Or.inl ⟨h.1, h.2⟩)
    · exact Or.inr (Or.inr (Or.inl ⟨h.1, h.2⟩))
    · exact Or.inr (Or.inr (Or.inr (char_eq_of_toNat (by rw [h]; decide))))

theorem isWordChar_toLowerChar {c : Char} (h : isWordChar c = true) :
    isWordChar (toLowerChar c) = true := by
  rcases isWordChar_iff.mp h with hr | hr | hr | hr
  · rw [toLowerChar_of_not_upper (by omega)]
    exact h
  · have h1 := @toLowerChar_toNat_of_upper c (by omega)
    exact isWordChar_iff.mpr (Or.inl (by omega))
  · rw [toLowerChar_of_not_upper (by omega)]
    exact h
  · rw [toLowerChar_of_not_upper (by omega)]
    exact h

theorem isWordChar_not_space {c : Char} (h : isWordChar c = true) :
    isSpaceChar c = false := by
  apply isSpaceChar_eq_false_of_ge
  rcases isWordChar_iff.mp h with hr | hr | hr | hr <;> omega

theorem isWordChar_ne_colon {c : Char} (h : isWordChar c = true) : c ≠ ':' := by
  rintro rfl
  revert h
  decide

theorem isWordChar_ne_rbracket {c : Char} (h : isWordChar c = true) : c ≠ ']' := by
  rintro rfl
  revert h
  decide

theorem isWordChar_ne_lbracket {c : Char} (h : isWordChar c = true) : c ≠ '[' := by
  rintro rfl
  revert h
  decide

/-! String-level normalisation facts. -/

theorem dropWhile_map_comm (f : Char → Char) (p : Char → Bool)
    (hp : ∀ c, p (f c) = p c) :
    ∀ l : Str, (l.map f).dropWhile p = (l.dropWhile p).map f := by
  intro l
  induction l with
  | nil => rfl
  | cons c t ih =>
    simp only [List.map_cons, List.dropWhile_cons, hp c]
    by_cases h : p c = true
    · simp [h, ih]
    · simp [h]

theorem trimStr_lowerStr_comm (s : Str) : trimStr (lowerStr s) = lowerStr (trimStr s) := by
  simp only [trimStr, lowerStr]
  rw [dropWhile_map_comm toLowerChar isSpaceChar isSpaceChar_toLowerChar s,
    ← List.map_reverse,
    dropWhile_map_comm toLowerChar isSpaceChar isSpaceChar_toLowerChar,
    ← List.map_reverse]

theorem lowerStr_idem (s : Str) : lowerStr (lowerStr s) = lowerStr s := by
  simp only [lowerStr, List.map_map]
  exact List.map_congr_left (fun c _ => toLowerChar_idem c)

theorem dropWhile_idem (p : Char → Bool) (l : Str) :
    (l.dropWhile p).dropWhile p = l.dropWhile p := by
  induction l with
  | nil => rfl
  | cons c t ih =>
    by_cases h : p c = true
    · simp [List.dropWhile_cons, h, ih]
    · simp [List.dropWhile_cons, h]

theorem dropWhile_head_false {p : Char → Bool} {l : Str} :
    ∀ c ∈ (l.dropWhile p).head?, p c = false := by
  induction l with
  | nil => intro c hc; cases hc
  | cons a t ih =>
    by_cases h : p a = true
    · simpa [List.dropWhile_cons, h] using ih
    · intro c hc
      simp only [List.dropWhile_cons, h, if_false, Bool.false_eq_true, List.head?_cons,
        Option.mem_some_iff] at hc
      subst hc
      simpa using h

theorem dropWhile_of_head_false {p : Char → Bool} {l : Str}
    (h : ∀ c ∈ l.head?, p c = false) : l.dropWhile p = l := by
  cases l with
  | nil => rfl
  | cons a t => simp [List.dropWhile_cons, h a (by simp)]

theorem trimStr_idem (s : Str) : trimStr (trimStr s) = trimStr s := by
  simp only [trimStr]
  set A := s.dropWhile isSpaceChar with hA
  set B := (A.reverse.dropWhile isSpaceChar).reverse with hB
  have hBpre : List.IsPrefix B A := by
    rw [hB]
    conv_rhs => rw [← List.reverse_reverse A]
    exact List.reverse_prefix.mpr (List.dropWhile_suffix isSpaceChar)
  have hfront : B.dropWhile isSpaceChar = B := by
    apply dropWhile_of_head_false
    intro c hc
    cases hcB : B with
    | nil => rw [hcB] at hc; cases hc
    | cons b t =>
      rw [hcB] at hc
      simp only [List.head?_cons, Option.mem_some_iff] at hc
      obtain ⟨r, hr⟩ := hBpre
      rw [hcB] at hr
      have hAhead : ∀ x ∈ A.head?, isSpaceChar x = false := by
        rw [hA]
        exact fun x hx => dropWhile_head_false x hx
      have := hAhead b (by rw [← hr]; simp)
      rwa [hc] at this
  rw [hfront, hB, List.reverse_reverse, dropWhile_idem]

theorem normName_idem (x : Str) :
    lowerStr (trimStr (lowerStr (trimStr x))) = lowerStr (trimStr x) := by
  rw [trimStr_lowerStr_comm (trimStr x), lowerStr_idem, trimStr_idem]

theorem mem_trimStr {x : Char} {s : Str} (h : x ∈ trimStr s) : x ∈ s := by
  simp only [trimStr, List.mem_reverse] at h
  have h2 := (List.dropWhile_sublist isSpaceChar).mem h
  rw [List.mem_reverse] at h2
  exact (List.dropWhile_sublist isSpaceChar).mem h2

theorem trimStr_of_no_space {s : Str} (h : ∀ c ∈ s, isSpaceChar c = false) :
    trimStr s = s := by
  simp only [trimStr]
  rw [dropWhile_of_head_false (fun c hc => h c (List.mem_of_mem_head? hc)),
    dropWhile_of_head_false
      (fun c hc => h c (List.mem_reverse.mp (List.mem_of_mem_head? hc))),
    List.reverse_reverse]

theorem isEmpty_false_of_ne_nil {α : Type} {l : List α} (h : l ≠ []) :
    l.isEmpty = false := by
  cases l with
  | nil => exact absurd rfl h
  | cons a t => rfl

/-- `takeWhile`/`dropWhile` on `good ++ bad :: rest` sections at `bad`. -/
theorem takeWhile_append_sect (p : Char → Bool) (l : Str) (x : Char) (r : Str)
    (hl : ∀ c ∈ l, p c = true) (hx : p x = false) :
    (l ++ x :: r).takeWhile p = l ∧ (l ++ x :: r).dropWhile p = x :: r := by
  induction l with
  | nil => simp [List.takeWhile_cons, List.dropWhile_cons, hx]
  | cons c t ih =>
    have hc : p c = true := hl c (by simp)
    have iht := ih (fun d hd => hl d (by simp [hd]))
    simp [List.takeWhile_cons, List.dropWhile_cons, hc, iht.1, iht.2]

theorem afterContent_rbrackets (content r : Str) :
    afterContent content (']' :: ']' :: r) = some (content, r) := by
  simp [afterContent]

theorem afterContent_cons_ne {x : Char} (hx : x ≠ ']') (content rest : Str) :
    afterContent content (x :: rest) = none := by
  cases rest with
  | nil => rfl
  | cons c2 r => simp only [afterContent]; rw [if_neg (fun hand => hx hand.1)]

/-- The typed regex matches a well-formed emitted tag exactly, consuming the
whole string. -/
theorem typedMatchAt_emit {t n : Str} (ht : t ≠ [])
    (htw : ∀ c ∈ t, isWordChar c = true) (hn : n ≠ []) (hnb : ∀ c ∈ n, c ≠ ']') :
    typedMatchAt ('[' :: '[' :: (t ++ ':' :: (n ++ [']', ']']))) = some ((t, n), []) := by
  have hw := takeWhile_append_sect isWordChar t ':' (n ++ [']', ']']) htw (by decide)
  have hc := takeWhile_append_sect (fun c => decide (c ≠ ']')) n ']' [']']
    (fun c hc => decide_eq_true (hnb c hc)) (by decide)
  simp only [typedMatchAt, hw.1, hw.2, isEmpty_false_of_ne_nil ht,
    Bool.false_eq_true, if_false, ite_false, if_true, ite_true, and_self,
    hc.1, hc.2, isEmpty_false_of_ne_nil hn, afterContent_rbrackets, Option.map_some]
  simp

theorem scanTypedFuel_nil (f : Nat) : scanTypedFuel f [] = [] := by
  cases f <;> rfl

theorem scanUntypedFuel_nil (f : Nat) : scanUntypedFuel f [] = [] := by
  cases f <;> rfl

/-- The typed scan of a well-formed emitted tag yields exactly its pair. -/
theorem scanTyped_emit {t n : Str} (ht : t ≠ [])
    (htw : ∀ c ∈ t, isWordChar c = true) (hn : n ≠ []) (hnb : ∀ c ∈ n, c ≠ ']') :
    scanTyped ('[' :: '[' :: (t ++ ':' :: (n ++ [']', ']']))) = [(t, n)] := by
  simp only [scanTyped, List.length_cons]
  rw [scanTypedFuel, typedMatchAt_emit ht htw hn hnb]
  simp [scanTypedFuel_nil]

theorem hasAdjacentBrackets_cons_of_ne {c : Char} (hc : c ≠ '[') (l : Str) :
    hasAdjacentBrackets (c :: l) = hasAdjacentBrackets l := by
  cases l with
  | nil => rfl
  | cons c2 t =>
    simp only [hasAdjacentBrackets]
    rw [decide_eq_false (fun hand => hc hand.1), Bool.false_or]

theorem hasAdjacentBrackets_tail {c : Char} {cs : Str}
    (h : hasAdjacentBrackets (c :: cs) = false) : hasAdjacentBrackets cs = false := by
  cases cs with
  | nil => rfl
  | cons c2 t =>
    simp only [hasAdjacentBrackets, Bool.or_eq_false_iff] at h
    exact h.2

theorem hasAdjacentBrackets_append_of_no_lbracket {xs : Str}
    (h : ∀ c ∈ xs, c ≠ '[') (ys : Str) :
    hasAdjacentBrackets (xs ++ ys) = hasAdjacentBrackets ys := by
  induction xs with
  | nil => rfl
  | cons c t ih =>
    rw [List.cons_append, hasAdjacentBrackets_cons_of_ne (h c (by simp)),
      ih (fun d hd => h d (by simp [hd]))]

theorem hasAdjacentBrackets_append_rbrackets {n : Str}
    (h : hasAdjacentBrackets n = false) :
    hasAdjacentBrackets (n ++ [']', ']']) = false := by
  induction n with
  | nil => decide
  | cons c t ih =>
    cases t with
    | nil =>
      simp only [List.cons_append, List.nil_append, hasAdjacentBrackets,
        Bool.or_eq_false_iff]
      exact ⟨decide_eq_false (fun hand => (by decide : (']' : Char) ≠ '[') hand.2),
        by decide⟩
    | cons c2 t2 =>
      simp only [hasAdjacentBrackets, Bool.or_eq_false_iff] at h
      rw [List.cons_append]
      have ih2 := ih h.2
      simp only [List.cons_append] at ih2
      simp only [hasAdjacentBrackets, List.cons_append, Bool.or_eq_false_iff]
      exact ⟨h.1, ih2⟩

theorem untypedMatchAt_none_of_no_brackets {l : Str}
    (h : hasAdjacentBrackets l = false) : untypedMatchAt l = none := by
  cases l with
  | nil => rfl
  | cons c1 t =>
    cases t with
    | nil => rfl
    | cons c2 r =>
      simp only [hasAdjacentBrackets, Bool.or_eq_false_iff] at h
      simp only [untypedMatchAt]
      rw [if_neg (of_decide_eq_false h.1)]

theorem scanUntypedFuel_nil_of_no_brackets :
    ∀ (f : Nat) (l : Str), hasAdjacentBrackets l = false → scanUntypedFuel f l = [] := by
  intro f
  induction f with
  | zero => intro l h; rfl
  | succ f ih =>
    intro l h
    cases l with
    | nil => rfl
    | cons c cs =>
      rw [scanUntypedFuel, untypedMatchAt_none_of_no_brackets h]
      exact ih cs (hasAdjacentBrackets_tail h)

/-- The untyped regex finds nothing in a well-formed emitted typed tag. -/
theorem scanUntyped_emit {t n : Str} (ht : t ≠ [])
    (htw : ∀ c ∈ t, isWordChar c = true)
    (hnbr : hasAdjacentBrackets n = false) :
    scanUntyped ('[' :: '[' :: (t ++ ':' :: (n ++ [']', ']']))) = [] := by
  have hY : hasAdjacentBrackets (t ++ ':' :: (n ++ [']', ']'])) = false := by
    rw [hasAdjacentBrackets_append_of_no_lbracket
        (fun c hc => isWordChar_ne_lbracket (htw c hc)),
      hasAdjacentBrackets_cons_of_ne (by decide)]
    exact hasAdjacentBrackets_append_rbrackets hnbr
  have hstep1 : untypedMatchAt ('[' :: '[' :: (t ++ ':' :: (n ++ [']', ']']))) = none := by
    have hct := takeWhile_append_sect (fun c => decide (c ≠ ']' ∧ c ≠ ':')) t ':'
      (n ++ [']', ']'])
      (fun c hc => decide_eq_true
        ⟨isWordChar_ne_rbracket (htw c hc), isWordChar_ne_colon (htw c hc)⟩)
      (by decide)
    simp only [untypedMatchAt, hct.1, hct.2, isEmpty_false_of_ne_nil ht,
      Bool.false_eq_true, if_false, ite_false, if_true, ite_true, and_self]
    rw [afterContent_cons_ne (by decide)]
  have hstep2 : untypedMatchAt ('[' :: (t ++ ':' :: (n ++ [']', ']']))) = none := by
    cases t with
    | nil => exact absurd rfl ht
    | cons tc tt =>
      simp only [List.cons_append, untypedMatchAt]
      rw [if_neg (fun hand => isWordChar_ne_lbracket (htw tc (by simp)) hand.2)]
  simp only [scanUntyped, List.length_cons]
  rw [scanUntypedFuel, hstep1, scanUntypedFuel, hstep2]
  exact scanUntypedFuel_nil_of_no_brackets _ _ hY

theorem ne_nil_of_not_isEmpty {α : Type} {l : List α} (h : ¬ l.isEmpty = true) :
    l ≠ [] := by
  intro hn
  rw [hn] at h
  exact h rfl

theorem afterContent_some {content r : Str} {p : Str × Str}
    (h : afterContent content r = some p) : p.1 = content := by
  cases r with
  | nil => cases h
  | cons c1 r1 =>
    cases r1 with
    | nil => cases h
    | cons c2 r2 =>
      simp only [afterContent] at h
      split at h
      · cases h; rfl
      · cases h

/-- What a successful typed match tells us about its capture groups: a
non-empty word-character type, a non-empty `]`-free content, and a `:` in the
input. -/
theorem typedMatchAt_inv {l w c : Str} {rest : Str}
    (h : typedMatchAt l = some ((w, c), rest)) :
    w ≠ [] ∧ (∀ ch ∈ w, isWordChar ch = true) ∧ c ≠ []
      ∧ (∀ ch ∈ c, ch ≠ ']') ∧ ':' ∈ l := by
  cases l with
  | nil => cases h
  | cons c1 t =>
    cases t with
    | nil => cases h
    | cons c2 r =>
      simp only [typedMatchAt] at h
      split at h
      case isFalse => cases h
      case isTrue hbr =>
        split at h
        case isTrue => cases h
        case isFalse hw =>
          split at h
          case h_2 => cases h
          case h_1 c3 r2 hdrop =>
            split at h
            case isFalse => cases h
            case isTrue hc3 =>
              split at h
              case isTrue => cases h
              case isFalse hcne =>
                obtain ⟨p, hp, hmap⟩ := Option.map_eq_some'.mp h
                obtain ⟨hw2, hc2, _⟩ := Prod.mk.injEq _ _ _ _ ▸ (by
                  cases hmap; exact ⟨rfl, rfl, rfl⟩ :
                    (w = r.takeWhile isWordChar ∧ c = p.1 ∧ rest = p.2))
                have hcontent := afterContent_some hp
                refine ⟨?_, ?_, ?_, ?_, ?_⟩
                · rw [hw2]; exact ne_nil_of_not_isEmpty hw
                · intro ch hch
                  rw [hw2] at hch
                  exact List.mem_takeWhile_imp hch
                · rw [hcontent]
                  exact ne_nil_of_not_isEmpty hcne
                · intro ch hch
                  rw [hcontent] at hch
                  have h2 := List.mem_takeWhile_imp hch
                  simp only [decide_eq_true_eq] at h2
                  exact h2
                · have hc3mem : c3 ∈ r.dropWhile isWordChar := by
                    rw [hdrop]; simp
                  have := (List.dropWhile_sublist isWordChar).mem hc3mem
                  rw [hc3] at this
                  simp [this]

theorem untypedMatchAt_inv {l content : Str} {rest : Str}
    (h : untypedMatchAt l = some (content, rest)) :
    content ≠ [] ∧ ∀ ch ∈ content, ch ≠ ']' := by
  cases l with
  | nil => cases h
  | cons c1 t =>
    cases t with
    | nil => cases h
    | cons c2 r =>
      simp only [untypedMatchAt] at h
      split at h
      case isFalse => cases h
      case isTrue =>
        split at h
        case isTrue => cases h
        case isFalse hcne =>
          have hcontent : content = r.takeWhile (fun c => decide (c ≠ ']' ∧ c ≠ ':')) :=
            afterContent_some h
          constructor
          · rw [hcontent]
            exact ne_nil_of_not_isEmpty hcne
          · intro ch hch
            rw [hcontent] at hch
            have h2 := List.mem_takeWhile_imp hch
            simp only [decide_eq_true_eq] at h2
            exact h2.1

theorem scanTypedFuel_inv :
    ∀ (f : Nat) (l : Str) (w c : Str), (w, c) ∈ scanTypedFuel f l →
      w ≠ [] ∧ (∀ ch ∈ w, isWordChar ch = true) ∧ c ≠ [] ∧ ∀ ch ∈ c, ch ≠ ']' := by
  intro f
  induction f with
  | zero => intro l w c hm; cases hm
  | succ f ih =>
    intro l w c hm
    cases l with
    | nil => cases hm
    | cons a cs =>
      rw [scanTypedFuel] at hm
      cases hmatch : typedMatchAt (a :: cs) with
      | some pr =>
        rw [hmatch] at hm
        rcases List.mem_cons.mp hm with heq | hm2
        · obtain ⟨p2, rest⟩ := pr
          obtain ⟨w2, c2⟩ := p2
          cases heq
          have := typedMatchAt_inv hmatch
          exact ⟨this.1, this.2.1, this.2.2.1, this.2.2.2.1⟩
        · exact ih _ w c hm2
      | none =>
        rw [hmatch] at hm
        exact ih _ w c hm

theorem scanUntypedFuel_inv :
    ∀ (f : Nat) (l : Str) (content : Str), content ∈ scanUntypedFuel f l →
      content ≠ [] ∧ ∀ ch ∈ content, ch ≠ ']' := by
  intro f
  induction f with
  | zero => intro l content hm; cases hm
  | succ f ih =>
    intro l content hm
    cases l with
    | nil => cases hm
    | cons a cs =>
      rw [scanUntypedFuel] at hm
      cases hmatch : untypedMatchAt (a :: cs) with
      | some pr =>
        rw [hmatch] at hm
        rcases List.mem_cons.mp hm with heq | hm2
        · obtain ⟨c2, rest⟩ := pr
          cases heq
          exact untypedMatchAt_inv hmatch
        · exact ih _ content hm2
      | none =>
        rw [hmatch] at hm
        exact ih _ content hm

theorem scanTypedFuel_eq_nil_of_no_colon :
    ∀ (f : Nat) (l : Str), (∀ ch ∈ l, ch ≠ ':') → scanTypedFuel f l = [] := by
  intro f
  induction f with
  | zero => intro l h; rfl
  | succ f ih =>
    intro l h
    cases l with
    | nil => rfl
    | cons a cs =>
      cases hmatch : typedMatchAt (a :: cs) with
      | some pr =>
        obtain ⟨⟨w, c⟩, rest⟩ := pr
        have := (typedMatchAt_inv hmatch).2.2.2.2
        exact absurd rfl (h ':' this)
      | none =>
        rw [scanTypedFuel, hmatch]
        exact ih cs (fun ch hch => h ch (by simp [hch]))

/-- Everything the dedup loop emits comes from the input pair list. -/
theorem mem_dedupEntities :
    ∀ (l : List (Str × Str)) (seen : List Str) (e : ExtractedEntity),
      e ∈ dedupEntities l seen → (e.type, e.name) ∈ l := by
  intro l
  induction l with
  | nil => intro seen e h; cases h
  | cons p rest ih =>
    intro seen e h
    obtain ⟨t, n⟩ := p
    simp only [dedupEntities] at h
    split at h
    · exact List.mem_cons_of_mem _ (ih _ e h)
    · rcases List.mem_cons.mp h with heq | h2
      · subst heq; simp
      · exact List.mem_cons_of_mem _ (ih _ e h2)

/-- The dedup loop never emits a key from `seen` and never emits a key
twice. -/
theorem dedupEntities_keys_nodup :
    ∀ (l : List (Str × Str)) (seen : List Str),
      (∀ e ∈ dedupEntities l seen, (e.type ++ ':' :: e.name) ∉ seen)
        ∧ ((dedupEntities l seen).map (fun e => e.type ++ ':' :: e.name)).Nodup := by
  intro l
  induction l with
  | nil =>
    intro seen
    exact ⟨fun e h => absurd h (by intro hx; cases hx), by simp [dedupEntities]⟩
  | cons p rest ih =>
    intro seen
    obtain ⟨t, n⟩ := p
    by_cases hk : (t ++ ':' :: n) ∈ seen
    · have hred : dedupEntities ((t, n) :: rest) seen = dedupEntities rest seen := by
        simp [dedupEntities, hk]
      rw [hred]
      exact ih seen
    · have hred : dedupEntities ((t, n) :: rest) seen
          = { name := n, type := t } :: dedupEntities rest ((t ++ ':' :: n) :: seen) := by
        simp [dedupEntities, hk]
      rw [hred]
      constructor
      · intro e he
        rcases List.mem_cons.mp he with heq | h2
        · subst heq; simpa using hk
        · intro hmem
          exact (ih _).1 e h2 (List.mem_cons_of_mem _ hmem)
      · rw [List.map_cons]
        refine List.nodup_cons.mpr ⟨?_, (ih _).2⟩
        intro hmem
        rcases List.mem_map.mp hmem with ⟨e, he, hkey⟩
        apply (ih _).1 e he
        simp only at hkey
        rw [hkey]
        simp

/-- Hence the emitted `(type, name)` pairs are pairwise distinct. -/
theorem dedupEntities_pairs_nodup (l : List (Str × Str)) (seen : List Str) :
    ((dedupEntities l seen).map (fun e => (e.type, e.name))).Nodup := by
  have h := (dedupEntities_keys_nodup l seen).2
  have h2 : (((dedupEntities l seen).map (fun e => (e.type, e.name))).map
      (fun p => p.1 ++ ':' :: p.2)).Nodup := by
    rw [List.map_map]
    exact h
  exact List.Nodup.of_map _ h2

/-- Shape of every extracted entity: a non-empty all-word-character type that
is a fixed point of lower-casing and trimming, a name that is a fixed point of
`trim().toLowerCase()`, and no `]` in the name. -/
theorem extractEntities_inv :
    ∀ (s : Str) (e : ExtractedEntity), e ∈ extractEntities s →
      e.type ≠ [] ∧ (∀ ch ∈ e.type, isWordChar ch = true)
        ∧ trimStr (lowerStr e.type) = e.type
        ∧ lowerStr (trimStr e.name) = e.name
        ∧ ∀ ch ∈ e.name, ch ≠ ']' := by
  intro s e he
  have hmem := mem_dedupEntities _ _ _ he
  rcases List.mem_append.mp hmem with hty | hun
  · rcases List.mem_map.mp hty with ⟨p, hp, heq⟩
    obtain ⟨w, c⟩ := p
    have hinv := scanTypedFuel_inv s.length s w c hp
    simp only [Prod.mk.injEq] at heq
    obtain ⟨h1, h2⟩ := heq
    have hlw_word : ∀ ch ∈ lowerStr w, isWordChar ch = true := by
      intro ch hch
      rcases List.mem_map.mp hch with ⟨d, hd, hdl⟩
      rw [← hdl]
      exact isWordChar_toLowerChar (hinv.2.1 d hd)
    have htr : trimStr (lowerStr w) = lowerStr w :=
      trimStr_of_no_space (fun ch hch => isWordChar_not_space (hlw_word ch hch))
    have htype : e.type = lowerStr w := by rw [← h1, htr]
    refine ⟨?_, ?_, ?_, ?_, ?_⟩
    · rw [htype]
      cases hw : w with
      | nil => exact absurd hw hinv.1
      | cons a t => simp [lowerStr]
    · rw [htype]; exact hlw_word
    · rw [htype, lowerStr_idem]; exact htr
    · rw [← h2]; exact normName_idem c
    · intro ch hch
      rw [← h2] at hch
      rcases List.mem_map.mp hch with ⟨d, hd, hdl⟩
      rw [← hdl]
      exact toLowerChar_ne_of_low (by decide) (hinv.2.2.2 d (mem_trimStr hd))
  · rcases List.mem_map.mp hun with ⟨cnt, hcnt, heq⟩
    have hinv := scanUntypedFuel_inv s.length s cnt hcnt
    simp only [Prod.mk.injEq] at heq
    obtain ⟨h1, h2⟩ := heq
    refine ⟨?_, ?_, ?_, ?_, ?_⟩
    · rw [← h1]; decide
    · rw [← h1]; decide
    · rw [← h1]; decide
    · rw [← h2]; exact normName_idem cnt
    · intro ch hch
      rw [← h2] at hch
      rcases List.mem_map.mp hch with ⟨d, hd, hdl⟩
      rw [← hdl]
      exact toLowerChar_ne_of_low (by decide) (hinv.2 d (mem_trimStr hd))

/-- **C9 counterexample.** The round-trip half of the claim fails on the text
`"[[topic: ]]"`: the typed regex captures the name `" "`, which trims to the
empty string, so extraction yields the pair `(topic, "")`; re-emitting that
pair gives `"[[topic:]]"`, whose empty content matches neither regex, so
re-parsing yields the empty set instead of the same set. -/
theorem extractEntities_roundtrip_counterexample :
    extractEntities "[[topic: ]]".data = [{ name := [], type := "topic".data }]
      ∧ extractEntities (emitTag { name := [], type := "topic".data }) = [] := by
  constructor
  · decide
  · decide

/-- **C9** (corrected). (a) Deduplication: the extracted `(type, name)` pairs
of any text are pairwise distinct — in particular a typed span never shows up
a second time as an untyped topic mention. (b) Untyped default: in a text
without `:` the typed regex cannot match, and every extracted entity has type
`"topic"`. (c) Round-trip, corrected: re-emitting an extracted pair as
`[[type:name]]` and re-parsing yields exactly that pair again PROVIDED the
extracted name is non-empty and does not contain the substring `[[` — without
these provisos the round-trip claim is false
(`extractEntities_roundtrip_counterexample`). -/
theorem extractEntities_roundtrip :
    (∀ s : Str, ((extractEntities s).map (fun e => (e.type, e.name))).Nodup)
      ∧ (∀ s : Str, (∀ ch ∈ s, ch ≠ ':') →
          ∀ e ∈ extractEntities s, e.type = "topic".data)
      ∧ (∀ (s : Str) (e : ExtractedEntity), e ∈ extractEntities s → e.name ≠ [] →
          hasAdjacentBrackets e.name = false → extractEntities (emitTag e) = [e]) := by
  refine ⟨?_, ?_, ?_⟩
  · intro s
    exact dedupEntities_pairs_nodup _ _
  · intro s hnc e he
    have hmem := mem_dedupEntities _ _ _ he
    rw [show scanTyped s = [] from scanTypedFuel_eq_nil_of_no_colon s.length s hnc]
      at hmem
    simp only [List.map_nil, List.nil_append] at hmem
    rcases List.mem_map.mp hmem with ⟨cnt, _, heq⟩
    simp only [Prod.mk.injEq] at heq
    exact heq.1.symm
  · intro s e he hne hbr
    obtain ⟨hty_ne, hty_w, hty_fix, hname_fix, hname_rb⟩ := extractEntities_inv s e he
    have hemit : emitTag e = '[' :: '[' :: (e.type ++ ':' :: (e.name ++ [']', ']'])) := by
      simp only [emitTag, List.cons_append, List.append_assoc]
    have hst : scanTyped (emitTag e) = [(e.type, e.name)] := by
      rw [hemit]
      exact scanTyped_emit hty_ne hty_w hne hname_rb
    have hsu : scanUntyped (emitTag e) = [] := by
      rw [hemit]
      exact scanUntyped_emit hty_ne hty_w hbr
    simp only [extractEntities, hst, hsu, List.map_cons, List.map_nil, List.append_nil]
    rw [hty_fix, hname_fix]
    simp [dedupEntities]

/-- **C9 witness**: on the concrete text `"x [[strategy:Visual Models]] y"`
extraction yields the single pair `(strategy, visual models)`, and the
round-trip part of `extractEntities_roundtrip` applied to it (its provisos
checked by `decide`) re-extracts exactly that pair from the re-emitted tag. -/
theorem extractEntities_roundtrip_witness :
    extractEntities "x [[strategy:Visual Models]] y".data
        = [{ name := "visual models".data, type := "strategy".data }]
      ∧ extractEntities
          (emitTag { name := "visual models".data, type := "strategy".data })
        = [{ name := "visual models".data, type := "strategy".data }] :=
  ⟨by decide,
    extractEntities_roundtrip.2.2 "x [[strategy:Visual Models]] y".data
      { name := "visual models".data, type := "strategy".data }
      (by decide) (by decide) (by decide)⟩


end Agency
